import Mathlib

/-!
# imageEater: path building, ingestion and clean-up

A shallow embedding of `saver/saver.go` and of the JSON branch of `LoadImages`
(`apiMethods.go`).

* Go strings are modelled as lists of characters (`Str`).  Every string operation of the
  source that is modelled here (`strings.Replace`, `strings.Split`, the byte slice `[:10]`,
  the regular expression) acts on the separator `/` or on ASCII text, so on well-formed UTF-8
  input the character model and Go's byte model agree.
* The file system is a map from paths to contents together with a log of the file operations
  performed; every function that touches it takes the state and returns the new one.
* Everything the source leaves to libraries and to the operating system (image codecs, the
  imaging library, HTTP, the clock, failing system calls, `os.Remove` among them) is a field
  of `Env`, so a theorem that quantifies over `Env` holds whatever those do.
-/

namespace ImageEater

/-! ## Strings -/

/-- Go `string`, as its list of characters. -/
abbrev Str := List Char

/-- `strings.Index(s, old)`: position of the first occurrence of `old` in `s`, `none` for
Go's `-1`. -/
def Index (old : Str) : Str → Option Nat
  | [] => if old = [] then some 0 else none
  | c :: cs =>
    if old.isPrefixOf (c :: cs) then some 0
    else (Index old cs).map (· + 1)

/-- The replacement loop of `strings.Replace`: at most `i` non-overlapping occurrences of
`old`, found from left to right, are replaced by `new`.  An empty `old` matches at the start
of the string and after each character (`first` tells the two apart).  Go bounds the loop
by `strings.Count(s, old)`; here the loop stops when no further occurrence is found, which
is the same bound. -/
def replaceLoop (old new : Str) : Nat → Bool → Str → Str
  | 0, _, s => s
  | i + 1, first, s =>
    if old = [] then
      if first then new ++ replaceLoop old new i false s
      else
        match s with
        | [] => []
        | c :: cs => c :: (new ++ replaceLoop old new i false cs)
    else
      match Index old s with
      | none => s
      | some j => s.take j ++ (new ++ replaceLoop old new i false (s.drop (j + old.length)))

/-- `strings.Replace(s, old, new, n)`; a negative `n` puts no limit on the number of
replacements (a string of length `k` holds at most `k + 1` occurrences). -/
def Replace (s old new : Str) (n : Int) : Str :=
  if old = new ∨ n = 0 then s
  else replaceLoop old new (if n < 0 then s.length + 1 else n.toNat) true s

/-- `strings.Split(s, sep)` for a one-character separator. -/
def Split (sep : Char) : Str → List Str
  | [] => [[]]
  | c :: cs =>
    if c = sep then [] :: Split sep cs
    else
      match Split sep cs with
      | [] => [[c]]
      | h :: t => (c :: h) :: t

/-- `strings.SplitN(s, sep, 2)` for a one-character separator. -/
def SplitN2 (sep : Char) : Str → List Str
  | [] => [[]]
  | c :: cs =>
    if c = sep then [[], cs]
    else
      match SplitN2 sep cs with
      | [] => [[c]]
      | h :: t => (c :: h) :: t

/-- Decimal text of an integer, the `%d` verb of `fmt.Sprintf`. -/
def formatInt (n : Int) : Str :=
  if n < 0 then '-' :: Nat.toDigits 10 n.natAbs else Nat.toDigits 10 n.toNat

/-! ## buildDestinationPath (saver.go, lines 59-72) -/

/-- `buildDestinationPath`: every `/` is removed from the file name, an empty name becomes
`undefined`, an empty directory yields the name alone, and otherwise directory and name are
joined by `/` and every `//` of the joined path is replaced by `/` in one pass. -/
def buildDestinationPath (directory filename : Str) : Str :=
  let filename := Replace filename "/".toList "".toList (-1)
  let filename := if filename = [] then "undefined".toList else filename
  if directory = [] then filename
  else Replace (directory ++ "/".toList ++ filename) "//".toList "/".toList (-1)

/-- The thumbnail path as all three ingestors compute it:
`strings.Replace(destinationFilePath, fileName, "min_"+fileName, 1)`. -/
def thumbnailPath (destinationFilePath fileName : Str) : Str :=
  Replace destinationFilePath fileName ("min_".toList ++ fileName) 1

/-! ## Errors, files and the environment -/

abbrev Bytes := List Nat

/-- A decoded picture (`image.Image`); its content is never inspected by the source. -/
structure Image where
  width : Nat
  height : Nat
  pixels : List Nat
deriving DecidableEq

/-- The error values the source returns: its own `sizeError` and `formatError`, the
`content-type error` of `SaveImageFromUrl`, `base64.CorruptInputError` (offset left out),
`os.PathError`, and `external` for any other error of a library or of the system. -/
inductive Error where
  | sizeError (text : Str)
  | formatError (expected real : Str)
  | contentTypeError
  | corruptInput
  | pathError (op path : Str)
  | external (code : Nat)
deriving DecidableEq

/-- How a call ends: it returns `nil`, it returns an error, or it panics (the slice
`b64Groups[2][:10]` of a string shorter than ten bytes). -/
inductive Outcome where
  | ok
  | error (e : Error)
  | panicked
deriving DecidableEq

/-- A file operation, as recorded in the log of the file system. -/
inductive FileEvent where
  | opened (path : Str)
  | created (path : Str)
  | written (path : Str) (data : Bytes)
  | removed (path : Str)
deriving DecidableEq

def FileEvent.path : FileEvent → Str
  | .opened p => p
  | .created p => p
  | .written p _ => p
  | .removed p => p

/-- The file system: the content of every existing file, and every file operation performed
so far (attempts that failed included). -/
structure World where
  files : Str → Option Bytes
  log : List FileEvent

def World.record (w : World) (e : FileEvent) : World :=
  { w with log := w.log ++ [e] }

def World.put (w : World) (path : Str) (content : Bytes) : World :=
  { w with files := fun p => if p = path then some content else w.files p }

def World.erase (w : World) (path : Str) : World :=
  { w with files := fun p => if p = path then none else w.files p }

/-- An `io.Reader`: the bytes it delivers, then end of file (`none`) or a read error. -/
structure Reader where
  data : Bytes
  err : Option Error

/-- A `multipart.Part`: what `FileName()` returns, and the body. -/
structure Part where
  fileName : Str
  body : Reader

/-- An `http.Response`: its `Content-Type` header and its body. -/
structure HttpResponse where
  contentType : Str
  body : Reader

/-- Ways `imaging.Save` fails: the extension names no supported format (nothing is touched),
the file cannot be created, or encoding stops after `written` has reached the file. -/
inductive SaveFault where
  | unsupported (e : Error)
  | createFailed (e : Error)
  | encodeFailed (written : Bytes) (e : Error)

/-- What the source takes from outside: the clock, the failures of system calls, the image
codecs of the standard library, the imaging library and the HTTP client.  The fault fields
read the whole state, log included, so the same call may fail at one time and succeed at
another. -/
structure Env where
  now : World → Int
  createFault : World → Str → Option Error
  writeFault : World → Str → Bytes → Option (Nat × Error)
  removeFault : World → Str → Option Error
  decodePng : Bytes → Except Error Image
  decodeJpeg : Bytes → Except Error Image
  decodeGif : Bytes → Except Error Image
  encodePng : Image → Bytes
  encodeJpeg : Image → Bytes
  encodeGif : Image → Bytes
  imagingDecode : Bytes → Except Error Image
  imagingThumbnail : Image → Int → Int → Image
  imagingEncode : Str → Image → Bytes
  saveFault : World → Str → Image → Option SaveFault
  httpGet : World → Str → Except Error HttpResponse

/-- `os.Create(name)`: on success the file exists and is empty. -/
def osCreate (env : Env) (name : Str) (w : World) : Option Error × World :=
  let w1 := w.record (.created name)
  match env.createFault w name with
  | some e => (some e, w1)
  | none => (none, w1.put name [])

/-- `os.OpenFile(name, os.O_WRONLY|os.O_CREATE, 0777)`: on success the file exists; a file
that was there keeps its content (no `O_TRUNC`). -/
def osOpenFile (env : Env) (name : Str) (w : World) : Option Error × World :=
  let w1 := w.record (.created name)
  match env.createFault w name with
  | some e => (some e, w1)
  | none => (none, w1.put name ((w.files name).getD []))

/-- Writing `data` from offset 0 into the open file `name`: the bytes overwrite the start of
the old content; a fault stops the write after `k` bytes. -/
def fileWrite (env : Env) (name : Str) (data : Bytes) (w : World) : Option Error × World :=
  let old := (w.files name).getD []
  match env.writeFault w name data with
  | some (k, e) =>
    let done := data.take k
    (some e, (w.record (.written name done)).put name (done ++ old.drop done.length))
  | none => (none, (w.record (.written name data)).put name (data ++ old.drop data.length))

/-- `io.Copy(destinationFile, src)`: what the reader delivers is written to the file; the
copy fails when the write fails or when the reader ends in an error. -/
def ioCopy (env : Env) (name : Str) (src : Reader) (w : World) : Option Error × World :=
  match fileWrite env name src.data w with
  | (some e, w1) => (some e, w1)
  | (none, w1) => (src.err, w1)

/-- `os.Remove(name)`: the call may fail (the handle on the file is still open when the
source calls it, the directory may not be writable) and then changes nothing; without a file
at `name` it fails as well; otherwise the file is deleted.  The source discards the result
of this call. -/
def osRemove (env : Env) (name : Str) (w : World) : Option Error × World :=
  let w1 := w.record (.removed name)
  match env.removeFault w name with
  | some e => (some e, w1)
  | none =>
    match w.files name with
    | none => (some (.pathError "remove".toList name), w1)
    | some _ => (none, w1.erase name)

/-- `imaging.Open(filename)`: the file is read and decoded, the format found from its
content. -/
def imagingOpen (env : Env) (filename : Str) (w : World) : Except Error Image × World :=
  let w1 := w.record (.opened filename)
  match w.files filename with
  | none => (.error (.pathError "open".toList filename), w1)
  | some content => (env.imagingDecode content, w1)

/-- `imaging.Save(img, filename)`: the file is created and the encoded picture written. -/
def imagingSave (env : Env) (img : Image) (filename : Str) (w : World) :
    Option Error × World :=
  match env.saveFault w filename img with
  | some (.unsupported e) => (some e, w)
  | some (.createFailed e) => (some e, w.record (.created filename))
  | some (.encodeFailed written e) =>
    (some e, ((w.record (.created filename)).record (.written filename written)).put
      filename written)
  | none =>
    let data := env.imagingEncode filename img
    (none, ((w.record (.created filename)).record (.written filename data)).put filename data)

/-! ## createThumbnail (saver.go, lines 40-57) -/

/-- `createThumbnail`: the size check comes first; then the picture is opened, resized and
saved under `previewFileName`. -/
def createThumbnail (env : Env) (imageFileName previewFileName : Str) (width height : Int)
    (w : World) : Option Error × World :=
  if width < 1 ∨ height < 1 then
    (some (.sizeError "thumbnail size error".toList), w)
  else
    match imagingOpen env imageFileName w with
    | (.error e, w1) => (some e, w1)
    | (.ok img, w1) =>
      let thumb := env.imagingThumbnail img width height
      imagingSave env thumb previewFileName w1

/-! ## SaveImageFromPart (saver.go, lines 74-104) -/

/-- `SaveImageFromPart`: create the destination file, copy the part into it, make the
thumbnail; only when the thumbnail fails is the removal of the destination file attempted,
and its result discarded. -/
def SaveImageFromPart (env : Env) (sourceFile : Part) (destinationDirectory : Str)
    (w : World) : Option Error × World :=
  let destinationFilePath := buildDestinationPath destinationDirectory sourceFile.fileName
  match osCreate env destinationFilePath w with
  | (some e, w1) => (some e, w1)
  | (none, w1) =>
    match ioCopy env destinationFilePath sourceFile.body w1 with
    | (some e, w2) => (some e, w2)
    | (none, w2) =>
      match createThumbnail env destinationFilePath
          (thumbnailPath destinationFilePath sourceFile.fileName) 100 100 w2 with
      | (some e, w3) => (some e, (osRemove env destinationFilePath w3).2)
      | (none, w3) => (none, w3)

/-! ## SaveImageFromBase64 (saver.go, lines 106-186) -/

/-- The rest of `s` after the literal `p`, when `s` starts with `p`. -/
def stripPrefix (p : Str) (s : Str) : Option Str :=
  if p.isPrefixOf s then some (s.drop p.length) else none

/-- The character class `[a-z]`. -/
def isLowerAZ (c : Char) : Bool := decide ('a' ≤ c) && decide (c ≤ 'z')

/-- One way of matching `([a-z]{3,4});base64,(.*)` at the start of `rest`: exactly `k`
letters, the literal, and then every character up to the first line feed (`.` matches no
line feed). -/
def matchFormat (k : Nat) (rest : Str) : Option (Str × Str) :=
  if k ≤ rest.length ∧ (rest.take k).all isLowerAZ = true then
    match stripPrefix ";base64,".toList (rest.drop k) with
    | some after => some (rest.take k, after.takeWhile (fun c => c != '\n'))
    | none => none
  else none

/-- The pattern `data:image/([a-z]{3,4});base64,(.*)` matched at the start of `s`; the greedy
repetition tries four letters before three. -/
def matchHere (s : Str) : Option (Str × Str) :=
  match stripPrefix "data:image/".toList s with
  | none => none
  | some rest =>
    match matchFormat 4 rest with
    | some g => some g
    | none => matchFormat 3 rest

/-- `re.FindStringSubmatch(s)` for that pattern: the leftmost match anywhere in `s` (the
pattern has no anchors), as the pair of its two groups; `none` for the empty result. -/
def FindStringSubmatch : Str → Option (Str × Str)
  | [] => matchHere []
  | c :: cs =>
    match matchHere (c :: cs) with
    | some g => some g
    | none => FindStringSubmatch cs

/-- The decoding table of `base64.StdEncoding`. -/
def decodeMap (c : Char) : Option Nat :=
  if 'A' ≤ c ∧ c ≤ 'Z' then some (c.toNat - 65)
  else if 'a' ≤ c ∧ c ≤ 'z' then some (c.toNat - 97 + 26)
  else if '0' ≤ c ∧ c ≤ '9' then some (c.toNat - 48 + 52)
  else if c = '+' then some 62
  else if c = '/' then some 63
  else none

def isNewline (c : Char) : Bool := c == '\n' || c == '\r'

/-- The bytes of one quantum: `dbuf` holds two, three or four six-bit values and yields one
byte fewer. -/
def quantumBytes (dbuf : List Nat) : Bytes :=
  let val := dbuf.getD 0 0 * 262144 + dbuf.getD 1 0 * 4096 + dbuf.getD 2 0 * 64 + dbuf.getD 3 0
  [val / 65536 % 256, val / 256 % 256, val % 256].take (dbuf.length - 1)

/-- The decoder of `base64.StdEncoding` (padded, not strict), quantum by quantum: `dbuf`
holds the six-bit values of the quantum being read.  Carriage returns and line feeds are
skipped; any other character outside the alphabet, a quantum cut short, wrong padding and text
after the padding are errors. -/
def decodeFrom : List Nat → Str → Except Error Bytes
  | dbuf, [] => if dbuf = [] then .ok [] else .error .corruptInput
  | dbuf, c :: cs =>
    match decodeMap c with
    | some out =>
      if dbuf.length = 3 then
        match decodeFrom [] cs with
        | .ok more => .ok (quantumBytes (dbuf ++ [out]) ++ more)
        | .error e => .error e
      else decodeFrom (dbuf ++ [out]) cs
    | none =>
      if isNewline c then decodeFrom dbuf cs
      else if c ≠ '=' then .error .corruptInput
      else if dbuf.length < 2 then .error .corruptInput
      else if dbuf.length = 2 then
        match cs.dropWhile isNewline with
        | [] => .error .corruptInput
        | d :: ds =>
          if d ≠ '=' then .error .corruptInput
          else if ds.dropWhile isNewline = [] then .ok (quantumBytes dbuf)
          else .error .corruptInput
      else if cs.dropWhile isNewline = [] then .ok (quantumBytes dbuf)
      else .error .corruptInput

/-- `base64.StdEncoding.DecodeString`. -/
def DecodeString (s : Str) : Except Error Bytes := decodeFrom [] s

/-- The first `switch` of `SaveImageFromBase64`: the decoder chosen by the declared format;
`none` is the `default` branch. -/
def decodeAs (env : Env) (format : Str) (b : Bytes) : Option (Except Error Image) :=
  if format = "png".toList then some (env.decodePng b)
  else if format = "jpg".toList ∨ format = "jpeg".toList then some (env.decodeJpeg b)
  else if format = "gif".toList then some (env.decodeGif b)
  else none

/-- The second `switch` of `SaveImageFromBase64`: the bytes the chosen encoder writes; `none`
when no case applies and nothing is written. -/
def encodeAs (env : Env) (format : Str) (pic : Image) : Option Bytes :=
  if format = "png".toList then some (env.encodePng pic)
  else if format = "jpg".toList ∨ format = "jpeg".toList then some (env.encodeJpeg pic)
  else if format = "gif".toList then some (env.encodeGif pic)
  else none

/-- The file name `fmt.Sprintf("%d%s.%s", time.Now().Unix(), b64Groups[2][:10],
b64Groups[1])`, for data of at least ten characters. -/
def base64FileName (now : Int) (data format : Str) : Str :=
  formatInt now ++ data.take 10 ++ ".".toList ++ format

/-- `SaveImageFromBase64`. -/
def SaveImageFromBase64 (env : Env) (sourceBase64 destinationDirectory : Str) (w : World) :
    Outcome × World :=
  match FindStringSubmatch sourceBase64 with
  | none => (.error (.formatError "base64".toList "undefined".toList), w)
  | some (format, data) =>
    match DecodeString data with
    | .error e => (.error e, w)
    | .ok b =>
      match decodeAs env format b with
      | none => (.error (.formatError "image(png/jpg/gif)".toList format), w)
      | some (.error e) => (.error e, w)
      | some (.ok pic) =>
        if data.length < 10 then (.panicked, w)
        else
          let fileName := base64FileName (env.now w) data format
          let destinationFilePath := buildDestinationPath destinationDirectory fileName
          match osOpenFile env destinationFilePath w with
          | (some e, w1) => (.error e, w1)
          | (none, w1) =>
            let wrote :=
              match encodeAs env format pic with
              | some encoded => fileWrite env destinationFilePath encoded w1
              | none => (none, w1)
            match wrote with
            | (some e, w2) => (.error e, w2)
            | (none, w2) =>
              match createThumbnail env destinationFilePath
                  (thumbnailPath destinationFilePath fileName) 100 100 w2 with
              | (some e, w3) => (.error e, (osRemove env destinationFilePath w3).2)
              | (none, w3) => (.ok, w3)

/-! ## SaveImageFromUrl (saver.go, lines 188-234) -/

/-- The file name taken from the URL: its part after the last `/`, and, when that holds no
dot, a dot and the content type's part after its first `/` (present, since the content type
starts with `image/`). -/
def urlFileName (url contentType : Str) : Str :=
  let fileName := (Split '/' url).getLastD []
  if ¬ ('.' ∈ fileName) then
    fileName ++ ".".toList ++ (SplitN2 '/' contentType).getD 1 []
  else fileName

/-- `SaveImageFromUrl`. -/
def SaveImageFromUrl (env : Env) (url destinationDirectory : Str) (w : World) :
    Option Error × World :=
  match env.httpGet w url with
  | .error e => (some e, w)
  | .ok response =>
    if ¬ ("image/".toList.isPrefixOf response.contentType) then
      (some .contentTypeError, w)
    else
      let fileName := urlFileName url response.contentType
      let destinationFilePath := buildDestinationPath destinationDirectory fileName
      match osOpenFile env destinationFilePath w with
      | (some e, w1) => (some e, w1)
      | (none, w1) =>
        match ioCopy env destinationFilePath response.body w1 with
        | (some e, w2) => (some e, w2)
        | (none, w2) =>
          match createThumbnail env destinationFilePath
              (thumbnailPath destinationFilePath fileName) 100 100 w2 with
          | (some e, w3) => (some e, (osRemove env destinationFilePath w3).2)
          | (none, w3) => (none, w3)

/-! ## LoadImages, the `application/json` branch (apiMethods.go, lines 46-77) -/

/-- The decoded request body. -/
structure JsonBody where
  Base64 : List Str
  Urls : List Str

/-- What the handler wrote to the `http.ResponseWriter`. -/
structure Response where
  status : Nat
  body : Str
deriving DecidableEq

/-- One element of a batch. -/
inductive Item where
  | base64 (payload : Str)
  | url (address : Str)
deriving DecidableEq

/-- The handler's effect: its response (`none` when it panicked before writing one), the
file system it leaves, and the items it handed to an ingestor, in order. -/
structure HandlerResult where
  response : Option Response
  world : World
  attempted : List Item

/-- The loop `for _, base64file := range jsonBody.Base64`; `tr` collects the items handed to
the ingestor. -/
def loadBase64 (env : Env) (filesDir : Str) :
    List Str → World → List Item → Outcome × World × List Item
  | [], w, tr => (.ok, w, tr)
  | base64file :: rest, w, tr =>
    match SaveImageFromBase64 env base64file filesDir w with
    | (.ok, w1) => loadBase64 env filesDir rest w1 (tr ++ [.base64 base64file])
    | (.error e, w1) => (.error e, w1, tr ++ [.base64 base64file])
    | (.panicked, w1) => (.panicked, w1, tr ++ [.base64 base64file])

/-- The loop `for _, url := range jsonBody.Urls`. -/
def loadUrls (env : Env) (filesDir : Str) :
    List Str → World → List Item → Option Error × World × List Item
  | [], w, tr => (none, w, tr)
  | url :: rest, w, tr =>
    match SaveImageFromUrl env url filesDir w with
    | (none, w1) => loadUrls env filesDir rest w1 (tr ++ [.url url])
    | (some e, w1) => (some e, w1, tr ++ [.url url])

/-- `LoadImages` for a request of content type `application/json` whose body decoded to
`jsonBody`; `filesDir` is `config.FilesDir`.  An error of an ingestor is answered by
`w.WriteHeader(http.StatusInternalServerError)` and a return; after both loops the handler
writes `ok`. -/
def LoadImages (env : Env) (filesDir : Str) (jsonBody : JsonBody) (w : World) :
    HandlerResult :=
  match loadBase64 env filesDir jsonBody.Base64 w [] with
  | (.error _, w1, tr) => ⟨some ⟨500, []⟩, w1, tr⟩
  | (.panicked, w1, tr) => ⟨none, w1, tr⟩
  | (.ok, w1, tr) =>
    match loadUrls env filesDir jsonBody.Urls w1 tr with
    | (some _, w2, tr2) => ⟨some ⟨500, []⟩, w2, tr2⟩
    | (none, w2, tr2) => ⟨some ⟨200, "ok".toList⟩, w2, tr2⟩

/-! ## Notions of the specification -/

/-- The file name component as the specification words it: the file name with every `/`
removed, or `undefined` when nothing is left. -/
def specFilename (filename : Str) : Str :=
  let t := filename.filter (fun c => c != '/')
  if t = [] then "undefined".toList else t

/-- One pass from left to right that replaces each `//` met by `/`: what
`strings.Replace(path, "//", "/", -1)` computes. -/
def collapse : Str → Str
  | [] => []
  | [c] => [c]
  | c :: d :: rest =>
    if c = '/' ∧ d = '/' then '/' :: collapse rest else c :: collapse (d :: rest)

/-- Whether `//` occurs in the string. -/
def hasDouble : Str → Bool
  | c :: d :: rest => (c == '/' && d == '/') || hasDouble (d :: rest)
  | _ => false

/-- Whether `///` occurs in the string. -/
def hasTriple : Str → Bool
  | c :: d :: e :: rest => (c == '/' && d == '/' && e == '/') || hasTriple (d :: e :: rest)
  | _ => false

/-- The payload is, as a whole, of the shape `data:image/<format>;base64,<data>`, whatever
the format and the data are. -/
def isDataUri (payload : Str) : Prop :=
  ∃ format data : Str,
    payload = "data:image/".toList ++ (format ++ (";base64,".toList ++ data))

/-- Somewhere in the payload stands `data:image/`, a format of three or four lower-case
letters, and `;base64,`. -/
def containsDataUri (payload : Str) : Prop :=
  ∃ pre format data : Str,
    payload = pre ++ ("data:image/".toList ++ (format ++ (";base64,".toList ++ data))) ∧
    (format.length = 3 ∨ format.length = 4) ∧ format.all isLowerAZ = true

/-- The ingestor that `LoadImages` calls for an item, with its result as an `Outcome`. -/
def ingest (env : Env) (filesDir : Str) : Item → World → Outcome × World
  | .base64 payload, w => SaveImageFromBase64 env payload filesDir w
  | .url address, w =>
    match SaveImageFromUrl env address filesDir w with
    | (none, w1) => (.ok, w1)
    | (some e, w1) => (.error e, w1)

/-- The file system after the given items have been ingested one after the other. -/
def worldAfter (env : Env) (filesDir : Str) : List Item → World → World
  | [], w => w
  | it :: rest, w => worldAfter env filesDir rest (ingest env filesDir it w).2

/-- The outcome of ingesting `it` once the items `before` have been ingested. -/
def outcomeAfter (env : Env) (filesDir : Str) (before : List Item) (it : Item) (w : World) :
    Outcome :=
  (ingest env filesDir it (worldAfter env filesDir before w)).1

/-- The destination path of the original that ingesting `it` in the state `w` works on, when
the ingestor gets as far as computing one. -/
def destinationOf (env : Env) (filesDir : Str) : Item → World → Option Str
  | .base64 payload, w =>
    match FindStringSubmatch payload with
    | some (format, data) =>
      some (buildDestinationPath filesDir (base64FileName (env.now w) data format))
    | none => none
  | .url address, w =>
    match env.httpGet w address with
    | .ok response =>
      some (buildDestinationPath filesDir (urlFileName address response.contentType))
    | .error _ => none

/-- Every file of `w` is still a file of `w2` (its content may have changed). -/
def keeps (w w2 : World) : Prop :=
  ∀ p, (w.files p).isSome = true → (w2.files p).isSome = true

/-- Every file of `w` except possibly the one at `dest` is still a file of `w2`. -/
def keepsExcept (dest : Option Str) (w w2 : World) : Prop :=
  ∀ p, (w.files p).isSome = true → some p ≠ dest → (w2.files p).isSome = true

/-- The batch in the order of the specification: the base64 payloads, then the URLs. -/
def batchItems (jsonBody : JsonBody) : List Item :=
  jsonBody.Base64.map Item.base64 ++ jsonBody.Urls.map Item.url

/-- Sequential ingestion that stops at the first item that does not succeed: the last
outcome, the file system, and the items attempted. -/
def runBatch (env : Env) (filesDir : Str) : List Item → World → Outcome × World × List Item
  | [], w => (.ok, w, [])
  | it :: rest, w =>
    match ingest env filesDir it w with
    | (.ok, w1) =>
      ((runBatch env filesDir rest w1).1, (runBatch env filesDir rest w1).2.1,
        it :: (runBatch env filesDir rest w1).2.2)
    | (.error e, w1) => (.error e, w1, [it])
    | (.panicked, w1) => (.panicked, w1, [it])

/-- The response that belongs to the outcome of a batch. -/
def respond : Outcome → Option Response
  | .ok => some ⟨200, "ok".toList⟩
  | .error _ => some ⟨500, []⟩
  | .panicked => none

/-! ## A concrete environment, for evaluating the model -/

/-- A stand-in decoder: a byte string is a picture when it starts with the signature. -/
def signatureDecode (signature : Bytes) (b : Bytes) : Except Error Image :=
  if signature.isPrefixOf b then .ok ⟨1, 1, b⟩ else .error (.external 1)

/-- An environment in which no system call fails, the clock shows 1600000000, every URL
answers with three bytes declared as `image/png`, and the codecs are stand-ins that tell the
formats apart by their signature bytes and keep the bytes as pixels. -/
def sampleEnv : Env where
  now := fun _ => 1600000000
  createFault := fun _ _ => none
  writeFault := fun _ _ _ => none
  removeFault := fun _ _ => none
  decodePng := signatureDecode [137, 80, 78, 71, 13, 10, 26, 10]
  decodeJpeg := signatureDecode [255, 216]
  decodeGif := signatureDecode [71, 73, 70, 56]
  encodePng := fun img => img.pixels
  encodeJpeg := fun img => img.pixels
  encodeGif := fun img => img.pixels
  imagingDecode := fun b =>
    match signatureDecode [137, 80, 78, 71, 13, 10, 26, 10] b with
    | .ok img => .ok img
    | .error _ =>
      match signatureDecode [255, 216] b with
      | .ok img => .ok img
      | .error _ => signatureDecode [71, 73, 70, 56] b
  imagingThumbnail := fun img width height => ⟨width.toNat, height.toNat, img.pixels.take 4⟩
  imagingEncode := fun _ img => img.pixels
  saveFault := fun _ _ _ => none
  httpGet := fun _ _ => .ok ⟨"image/png".toList, ⟨[1, 2, 3], none⟩⟩

/-- The same environment, except that `imaging.Save` rejects every file name. -/
def unsupportedEnv : Env :=
  { sampleEnv with saveFault := fun _ _ _ => some (.unsupported (.external 3)) }

/-- The sample environment with a disk that takes one byte of every write and then fails. -/
def diskFullEnv : Env :=
  { sampleEnv with writeFault := fun _ _ _ => some (1, .external 8) }

/-- The sample environment with a server whose response body breaks after two bytes. -/
def brokenBodyEnv : Env :=
  { sampleEnv with
    httpGet := fun _ _ => .ok ⟨"image/png".toList, ⟨[137, 80], some (.external 7)⟩⟩ }

/-- The sample environment with an `os.Remove` that always fails. -/
def stuckEnv : Env :=
  { sampleEnv with removeFault := fun _ _ => some (.external 9) }

/-- The same, with an `imaging.Save` that rejects every file name as well. -/
def stuckUnsupportedEnv : Env :=
  { unsupportedEnv with removeFault := fun _ _ => some (.external 9) }

/-- A file system without files. -/
def emptyWorld : World := ⟨fun _ => none, []⟩

/-- An upload named `a.png` whose stream breaks after the first two bytes of a PNG. -/
def brokenUpload : Part := ⟨"a.png".toList, ⟨[137, 80], some (.external 7)⟩⟩

/-- A data URI holding a complete 1x1 baseline JPEG (160 bytes). -/
def jpegPayload : Str :=
  ("data:image/jpeg;base64,/9j/4AAQSkZJRgABAQAAAQABAAD/2wBDABALDA4MChAODQ4SERATGCgaGBYWGDEj" ++
   "JR0oOjM9PDkzODdASFxOQERXRTc4UG1RV19iZ2hnPk1xeXBkeFxlZ2P/wAALCAABAAEBAREA/8QAFAABAAAAAAAA" ++
   "AAAAAAAAAAAAB//EABQQAQAAAAAAAAAAAAAAAAAAAAD/2gAIAQEAAD8AQH//2Q==").toList

/-- A data URI holding a complete 1x1 PNG (67 bytes). -/
def pngPayload : Str :=
  ("data:image/png;base64,iVBORw0KGgoAAAANSUhEUgAAAAEAAAABAQAAAAA3bvkkAAAACklEQVQI12NoAAAAggCB" ++
   "3UNq9AAAAABJRU5ErkJggg==").toList

/-- The bytes of that PNG. -/
def pngBytes : Bytes :=
  [137, 80, 78, 71, 13, 10, 26, 10, 0, 0, 0, 13, 73, 72, 68, 82, 0, 0, 0, 1, 0, 0, 0, 1, 1, 0,
   0, 0, 0, 55, 110, 249, 36, 0, 0, 0, 10, 73, 68, 65, 84, 8, 215, 99, 104, 0, 0, 0, 130, 0,
   129, 221, 67, 106, 244, 0, 0, 0, 0, 73, 69, 78, 68, 174, 66, 96, 130]

/-- The sample environment with two hosts: `http://a/pic.png` answers with the PNG, every
other URL with three bytes that are no picture. -/
def twoHostEnv : Env :=
  { sampleEnv with
    httpGet := fun _ url =>
      if url = "http://a/pic.png".toList then .ok ⟨"image/png".toList, ⟨pngBytes, none⟩⟩
      else .ok ⟨"image/png".toList, ⟨[1, 2, 3], none⟩⟩ }

/-! # Theorems -/

/-! ## Lemmas on Replace -/

theorem replaceLoop_nil (old new : Str) (h : old ≠ []) (i : Nat) (b : Bool) :
    replaceLoop old new i b [] = [] := by
  cases i with
  | zero => rfl
  | succ i => simp [replaceLoop, h, Index]

theorem replaceLoop_cons (old new : Str) (h : old ≠ []) (i : Nat) (b : Bool) (c : Char)
    (cs : Str) :
    replaceLoop old new (i + 1) b (c :: cs) =
      if old.isPrefixOf (c :: cs) then
        new ++ replaceLoop old new i false ((c :: cs).drop old.length)
      else c :: replaceLoop old new (i + 1) false cs := by
  by_cases hp : old.isPrefixOf (c :: cs) = true
  · simp [replaceLoop, h, Index, hp]
  · cases hi : Index old cs with
    | none => simp [replaceLoop, h, Index, hp, hi]
    | some j => simp [replaceLoop, h, Index, hp, hi, Nat.add_right_comm]

theorem replaceLoop_slash (n : Nat) (b : Bool) (s : Str) (h : s.length < n) :
    replaceLoop ['/'] [] n b s = s.filter (fun c => c != '/') := by
  induction s generalizing n b with
  | nil => simp [replaceLoop_nil]
  | cons c cs ih =>
    cases n with
    | zero => simp at h
    | succ i =>
      rw [replaceLoop_cons _ _ (by simp)]
      by_cases hc : c = '/'
      · subst hc
        simp at h
        simp [ih i false h]
      · have hc2 : ¬ ('/' = c) := fun e => hc e.symm
        simp at h
        simp [hc, hc2, ih (i+1) false (by omega)]

theorem replaceLoop_collapse (n : Nat) (s : Str) : ∀ (b : Bool), s.length < n →
    replaceLoop ['/', '/'] ['/'] n b s = collapse s := by
  induction s using collapse.induct generalizing n with
  | case1 => intro b _; simp [replaceLoop_nil, collapse]
  | case2 c =>
    intro b h
    cases n with
    | zero => simp at h
    | succ i =>
      rw [replaceLoop_cons _ _ (by simp)]
      simp [replaceLoop_nil, collapse]
  | case3 c d rest hcd ih =>
    intro b h
    cases n with
    | zero => simp at h
    | succ i =>
      rw [replaceLoop_cons _ _ (by simp)]
      obtain ⟨h1, h2⟩ := hcd
      subst h1; subst h2
      simp at h
      simp [collapse, ih i false (by omega)]
  | case4 c d rest hcd ih =>
    intro b h
    cases n with
    | zero => simp at h
    | succ i =>
      rw [replaceLoop_cons _ _ (by simp)]
      have : ¬ ('/' = c ∧ '/' = d) := fun e => hcd ⟨e.1.symm, e.2.symm⟩
      simp at h
      simp [collapse, hcd, this, ih (i+1) false (by simp; omega)]

/-! ## buildDestinationPath -/

theorem specFilename_no_slash (filename : Str) : '/' ∉ specFilename filename := by
  unfold specFilename
  by_cases h : filename.filter (fun c => c != '/') = []
  · simp only [h, if_true]; decide
  · simp only [h, if_false]
    simp [List.mem_filter]

theorem specFilename_ne_nil (filename : Str) : specFilename filename ≠ [] := by
  unfold specFilename
  by_cases h : filename.filter (fun c => c != '/') = []
  · simp only [h, if_true]; decide
  · rw [if_neg h]; exact h

theorem buildDestinationPath_eq (directory filename : Str) :
    buildDestinationPath directory filename =
      if directory = [] then specFilename filename
      else collapse (directory ++ '/' :: specFilename filename) := by
  have h1 : Replace filename "/".toList "".toList (-1) = filename.filter (fun c => c != '/') := by
    simp only [Replace]
    rw [if_neg (by decide)]
    simp only [show ((-1 : Int) < 0) from by decide, if_true]
    exact replaceLoop_slash _ _ _ (Nat.lt_succ_self _)
  have h2 : ∀ p : Str, Replace p "//".toList "/".toList (-1) = collapse p := by
    intro p
    simp only [Replace]
    rw [if_neg (by decide)]
    simp only [show ((-1 : Int) < 0) from by decide, if_true]
    exact replaceLoop_collapse _ _ _ (Nat.lt_succ_self _)
  unfold buildDestinationPath
  simp only [h1, h2, specFilename]
  simp

theorem collapse_no_slash (t : Str) (ht : '/' ∉ t) : collapse t = t := by
  induction t using collapse.induct with
  | case1 => rfl
  | case2 c => rfl
  | case3 c d rest hcd ih => simp [hcd.1] at ht
  | case4 c d rest hcd ih =>
    simp only [collapse, hcd, if_false]
    rw [ih (by intro h; exact ht (List.mem_cons_of_mem _ h))]

theorem collapse_append_no_slash (x t : Str) (ht : '/' ∉ t) :
    collapse (x ++ t) = collapse x ++ t := by
  induction x using collapse.induct with
  | case1 => simpa [collapse] using collapse_no_slash t ht
  | case2 c =>
    cases t with
    | nil => simp
    | cons d rest =>
      have hd : d ≠ '/' := by intro e; subst e; simp at ht
      have := collapse_no_slash (d :: rest) ht
      simp [collapse, hd, this]
  | case3 c d rest hcd ih => simp [collapse, hcd, ih]
  | case4 c d rest hcd ih =>
    have := ih
    simp only [List.cons_append] at this ⊢
    simp [collapse, hcd, this]

theorem collapse_append_slash (x : Str) : ∃ y, collapse (x ++ ['/']) = y ++ ['/'] := by
  induction x using collapse.induct with
  | case1 => exact ⟨[], rfl⟩
  | case2 c =>
    by_cases hc : c = '/'
    · exact ⟨[], by simp [collapse, hc]⟩
    · exact ⟨[c], by simp [collapse, hc]⟩
  | case3 c d rest hcd ih =>
    obtain ⟨y, hy⟩ := ih
    exact ⟨'/' :: y, by simp [collapse, hcd, hy]⟩
  | case4 c d rest hcd ih =>
    obtain ⟨y, hy⟩ := ih
    refine ⟨c :: y, ?_⟩
    simp only [List.cons_append] at hy ⊢
    simp [collapse, hcd, hy]

/-- C1. For every directory and every file name, the path `buildDestinationPath` returns is
not empty, and with `s` the file name with every `/` removed (or `undefined` when nothing is
left): `s` contains no `/`, the path ends with `s`, and the path is `s` itself or has a `/`
right before that final `s`. -/
theorem buildDestinationPath_filename_separator_free (directory filename : Str) :
    buildDestinationPath directory filename ≠ [] ∧
    '/' ∉ specFilename filename ∧
    specFilename filename <:+ buildDestinationPath directory filename ∧
    (buildDestinationPath directory filename = specFilename filename ∨
      ∃ pre, buildDestinationPath directory filename = pre ++ '/' :: specFilename filename) := by
  have hs := specFilename_no_slash filename
  have hne := specFilename_ne_nil filename
  rw [buildDestinationPath_eq]
  by_cases hd : directory = []
  · rw [if_pos hd]
    exact ⟨hne, hs, List.suffix_refl _, Or.inl rfl⟩
  · rw [if_neg hd]
    have e : directory ++ '/' :: specFilename filename
        = (directory ++ ['/']) ++ specFilename filename := by simp
    rw [e, collapse_append_no_slash _ _ hs]
    obtain ⟨y, hy⟩ := collapse_append_slash directory
    rw [hy]
    refine ⟨by simp [hne], hs, List.suffix_append _ _, Or.inr ⟨y, by simp⟩⟩

theorem collapse_dir_slash (x : Str) (hx : x ≠ []) (hdd : ¬ (['/', '/'] <:+: x)) :
    collapse (x ++ ['/']) = if ['/'] <:+ x then x else x ++ ['/'] := by
  induction x using collapse.induct with
  | case1 => exact absurd rfl hx
  | case2 c =>
    by_cases hc : c = '/'
    · subst hc; simp [collapse]
    · have : ¬ (['/'] <:+ [c]) := by
        simp [List.suffix_cons_iff]; exact fun e => hc e.symm
      simp [collapse, hc, this]
  | case3 c d rest hcd ih =>
    exfalso; apply hdd
    rw [hcd.1, hcd.2]
    exact ⟨[], rest, rfl⟩
  | case4 c d rest hcd ih =>
    have hdd2 : ¬ (['/', '/'] <:+: d :: rest) := fun h => hdd (List.infix_cons h)
    have := ih (by simp) hdd2
    simp only [List.cons_append] at this ⊢
    have hsuf : (['/'] <:+ c :: d :: rest) ↔ (['/'] <:+ d :: rest) := by
      rw [List.suffix_cons_iff]; simp
    simp only [collapse, hcd, if_false, this]
    by_cases hh : ['/'] <:+ d :: rest
    · simp [hh, hsuf.2 hh]
    · have : ¬ (['/'] <:+ c :: d :: rest) := fun h => hh (hsuf.1 h)
      simp [hh, this]

/-- C2. For every file name and every directory without `//`, `buildDestinationPath` returns
`s` when the directory is empty, `directory ++ s` when the directory ends with `/`, and
`directory ++ "/" ++ s` otherwise, with `s` the file name with every `/` removed (or
`undefined` when nothing is left); and on the four inputs of the specification it returns
`undefined`, `undefined`, `a/b/xy.jpg` and `a/b/xy.jpg`. -/
theorem buildDestinationPath_join :
    (∀ directory filename : Str, ¬ ("//".toList <:+: directory) →
      buildDestinationPath directory filename =
        if directory = [] then specFilename filename
        else if "/".toList <:+ directory then directory ++ specFilename filename
        else directory ++ "/".toList ++ specFilename filename) ∧
    buildDestinationPath "".toList "".toList = "undefined".toList ∧
    buildDestinationPath "".toList "/".toList = "undefined".toList ∧
    buildDestinationPath "a/b".toList "x/y.jpg".toList = "a/b/xy.jpg".toList ∧
    buildDestinationPath "a/b/".toList "x/y.jpg".toList = "a/b/xy.jpg".toList := by
  refine ⟨?_, by decide, by decide, by decide, by decide⟩
  intro directory filename hdd
  rw [buildDestinationPath_eq]
  by_cases hd : directory = []
  · simp [hd]
  · simp only [hd, if_false]
    have e : directory ++ '/' :: specFilename filename
        = (directory ++ ['/']) ++ specFilename filename := by simp
    rw [e, collapse_append_no_slash _ _ (specFilename_no_slash filename),
      collapse_dir_slash directory hd hdd]
    by_cases hh : ['/'] <:+ directory
    · simp [hh]
    · simp [hh]

theorem buildDestinationPath_join_witness :
    ¬ ("//".toList <:+: "b/b/b/b".toList) ∧
    buildDestinationPath "b/b/b/b".toList "a/a.jpg".toList = "b/b/b/b/aa.jpg".toList :=
  ⟨by decide,
    (buildDestinationPath_join.1 "b/b/b/b".toList "a/a.jpg".toList (by decide)).trans
      (by decide)⟩

theorem hasDouble_iff_infix (s : Str) : hasDouble s = true ↔ ['/', '/'] <:+: s := by
  induction s using hasDouble.induct with
  | case1 c d rest ih =>
    have hp : (['/', '/'] <+: c :: d :: rest) ↔ (c = '/' ∧ d = '/') := by
      simp only [List.cons_prefix_cons, List.nil_prefix, and_true]
      constructor
      · rintro ⟨h1, h2⟩; exact ⟨h1.symm, h2.symm⟩
      · rintro ⟨h1, h2⟩; exact ⟨h1.symm, h2.symm⟩
    rw [List.infix_cons_iff, ← ih, hp]
    simp [hasDouble]
  | case2 s h =>
    match s, h with
    | [], _ => simp [hasDouble]
    | [c], _ => simp [hasDouble, List.infix_cons_iff]
    | c :: d :: rest, h => exact absurd rfl (h c d rest)

theorem hasTriple_iff_infix (s : Str) : hasTriple s = true ↔ ['/', '/', '/'] <:+: s := by
  induction s using hasTriple.induct with
  | case1 c d e rest ih =>
    have hp : (['/', '/', '/'] <+: c :: d :: e :: rest) ↔ (c = '/' ∧ d = '/' ∧ e = '/') := by
      simp only [List.cons_prefix_cons, List.nil_prefix, and_true]
      constructor
      · rintro ⟨h1, h2, h3⟩; exact ⟨h1.symm, h2.symm, h3.symm⟩
      · rintro ⟨h1, h2, h3⟩; exact ⟨h1.symm, h2.symm, h3.symm⟩
    rw [List.infix_cons_iff, ← ih, hp]
    simp [hasTriple, and_assoc]
  | case2 s h =>
    match s, h with
    | [], _ => simp [hasTriple]
    | [c], _ => simp [hasTriple, List.infix_cons_iff]
    | [c, d], _ => simp [hasTriple, List.infix_cons_iff]
    | c :: d :: e :: rest, h => exact absurd rfl (h c d e rest)

theorem collapse_head (s : Str) : (collapse s).head? = s.head? := by
  induction s using collapse.induct with
  | case1 => rfl
  | case2 c => rfl
  | case3 c d rest hcd ih => simp [collapse, hcd]
  | case4 c d rest hcd ih => simp [collapse, hcd]

theorem collapse_cons (e : Char) (r : Str) : ∃ tl, collapse (e :: r) = e :: tl := by
  cases r with
  | nil => exact ⟨[], rfl⟩
  | cons d rest =>
    by_cases h : e = '/' ∧ d = '/'
    · exact ⟨collapse rest, by simp [collapse, h]⟩
    · exact ⟨collapse (d :: rest), by simp [collapse, h]⟩

theorem hasDouble_collapse (p : Str) : hasDouble (collapse p) = hasTriple p := by
  induction p using collapse.induct with
  | case1 => rfl
  | case2 c => rfl
  | case3 c d rest hcd ih =>
    obtain ⟨h1, h2⟩ := hcd
    subst h1; subst h2
    cases rest with
    | nil => rfl
    | cons e r =>
      obtain ⟨tl, htl⟩ := collapse_cons e r
      have h3 : collapse ('/' :: '/' :: e :: r) = '/' :: e :: tl := by
        simp [collapse, htl]
      rw [h3]
      rw [htl] at ih
      cases r with
      | nil =>
        simp [collapse] at htl
        subst htl
        simp [hasDouble, hasTriple]
      | cons f r2 =>
        simp only [hasDouble, hasTriple] at ih ⊢
        rw [ih]
        cases h : (e == '/') <;> simp [h]
  | case4 c d rest hcd ih =>
    obtain ⟨tl, htl⟩ := collapse_cons d rest
    have h3 : collapse (c :: d :: rest) = c :: d :: tl := by
      simp [collapse, hcd, htl]
    rw [h3]
    rw [htl] at ih
    have hb : (c == '/' && d == '/') = false := by
      simpa using hcd
    cases rest with
    | nil =>
      simp only [hasDouble, hb, Bool.false_or, hasTriple]
      rw [ih]; rfl
    | cons e r =>
      simp only [hasDouble, hasTriple, hb, Bool.false_or, Bool.false_and] at ih ⊢
      rw [ih]

theorem hasDouble_no_slash (t : Str) (ht : '/' ∉ t) : hasDouble t = false := by
  induction t using hasDouble.induct with
  | case1 c d rest ih =>
    have hc : c ≠ '/' := by intro e; subst e; simp at ht
    simp only [hasDouble]
    rw [ih (by intro h; exact ht (List.mem_cons_of_mem _ h))]
    simp [hc]
  | case2 s h =>
    match s, h with
    | [], _ => rfl
    | [c], _ => rfl
    | c :: d :: rest, h => exact absurd rfl (h c d rest)

theorem hasDouble_append_no_slash (y t : Str) (ht : '/' ∉ t) : hasDouble (y ++ t) = hasDouble y := by
  induction y using hasDouble.induct with
  | case1 c d rest ih =>
    have := ih
    simp only [List.cons_append] at this ⊢
    simp only [hasDouble, this]
  | case2 s h =>
    match s, h with
    | [], _ => simpa [hasDouble] using hasDouble_no_slash t ht
    | [c], _ =>
      cases t with
      | nil => rfl
      | cons d rest =>
        have hd : d ≠ '/' := by intro e; subst e; simp at ht
        have := hasDouble_no_slash (d :: rest) ht
        simp [hasDouble, hd, this]
    | c :: d :: rest, h => exact absurd rfl (h c d rest)

theorem triple_append_slash (x : Str) :
    (['/', '/', '/'] <:+: x ++ ['/']) ↔ (['/', '/', '/'] <:+: x ∨ ['/', '/'] <:+ x) := by
  constructor
  · rintro ⟨a, b, h⟩
    rcases List.eq_nil_or_concat b with rfl | ⟨b2, z, rfl⟩
    · right
      have e : (a ++ ['/', '/']) ++ ['/'] = x ++ ['/'] := by simpa using h
      have := List.append_inj_left' e rfl
      exact ⟨a, this⟩
    · left
      have e : (a ++ ['/', '/', '/'] ++ b2) ++ [z] = x ++ ['/'] := by simpa using h
      have := List.append_inj_left' e rfl
      exact ⟨a, b2, this⟩
  · rintro (⟨a, b, h⟩ | ⟨a, h⟩)
    · exact ⟨a, b ++ ['/'], by simp [← h]⟩
    · exact ⟨a, [], by simp [← h]⟩

/-- C3, amended. For every directory and every file name, the path `buildDestinationPath`
returns contains `//` exactly when the directory contains `///` or ends with `//`; so the
path of a directory without a doubled separator never contains one. -/
theorem buildDestinationPath_doubled_separator_iff (directory filename : Str) :
    ("//".toList <:+: buildDestinationPath directory filename) ↔
      ("///".toList <:+: directory ∨ "//".toList <:+ directory) := by
  show (['/', '/'] <:+: buildDestinationPath directory filename) ↔
      (['/', '/', '/'] <:+: directory ∨ ['/', '/'] <:+ directory)
  have hs := specFilename_no_slash filename
  rw [buildDestinationPath_eq, ← hasDouble_iff_infix]
  by_cases hd : directory = []
  · subst hd
    simp [hasDouble_no_slash _ hs, List.suffix_nil]
  · rw [if_neg hd]
    have e : directory ++ '/' :: specFilename filename
        = (directory ++ ['/']) ++ specFilename filename := by simp
    rw [e, collapse_append_no_slash _ _ hs, hasDouble_append_no_slash _ _ hs, hasDouble_collapse,
      hasTriple_iff_infix, triple_append_slash]

/-- C3, counterexample. It is not so that no returned path contains `//`: for the directory
`a//` and the file name `x` the path is `a//x`. -/
theorem buildDestinationPath_doubled_separator_counterexample :
    ¬ (∀ directory filename : Str,
        ¬ ("//".toList <:+: buildDestinationPath directory filename)) := by
  intro h
  exact h "a//".toList "x".toList ⟨"a".toList, "x".toList, by decide⟩


/-! ## The thumbnail path -/

theorem prefix_collapse (z name : Str) (hn : '/' ∉ name) (h : name <+: collapse z) :
    name <+: z := by
  induction z using collapse.induct generalizing name with
  | case1 => simpa [collapse] using h
  | case2 c => simpa [collapse] using h
  | case3 c d rest hcd ih =>
    cases name with
    | nil => exact List.nil_prefix
    | cons a as =>
      simp only [collapse, hcd, and_self, if_true, List.cons_prefix_cons] at h
      exact absurd (h.1 ▸ List.mem_cons_self a as) hn
  | case4 c d rest hcd ih =>
    cases name with
    | nil => exact List.nil_prefix
    | cons a as =>
      simp only [collapse, hcd, if_false, List.cons_prefix_cons] at h
      have := ih as (fun hm => hn (List.mem_cons_of_mem _ hm)) h.2
      exact List.cons_prefix_cons.2 ⟨h.1, this⟩

theorem infix_collapse (x name : Str) (hn : '/' ∉ name) (hne : name ≠ [])
    (h : name <:+: collapse x) : name <:+: x := by
  induction x using collapse.induct with
  | case1 => simpa [collapse] using h
  | case2 c => simpa [collapse] using h
  | case3 c d rest hcd ih =>
    simp only [collapse, hcd, and_self, if_true] at h
    rcases List.infix_cons_iff.1 h with hp | hi
    · cases name with
      | nil => exact absurd rfl hne
      | cons a as =>
        rw [List.cons_prefix_cons] at hp
        exact absurd (hp.1 ▸ List.mem_cons_self a as) hn
    · exact List.infix_cons (List.infix_cons (ih hi))
  | case4 c d rest hcd ih =>
    simp only [collapse, hcd, if_false] at h
    rcases List.infix_cons_iff.1 h with hp | hi
    · have h2 : name <+: collapse (c :: d :: rest) := by
        simpa only [collapse, hcd, if_false] using hp
      exact (prefix_collapse _ _ hn h2).isInfix
    · exact List.infix_cons (ih hi)

theorem Index_append_self (name pre : Str) (hne : name ≠ [])
    (hq : ∀ q, q <:+ pre → q ≠ [] → ¬ name <+: q ++ name) :
    Index name (pre ++ name) = some pre.length := by
  induction pre with
  | nil =>
    cases name with
    | nil => exact absurd rfl hne
    | cons a as =>
      have : (a :: as).isPrefixOf (a :: as) = true :=
        List.isPrefixOf_iff_prefix.2 (List.prefix_refl _)
      simp only [List.nil_append, Index, this, if_true, List.length_nil]
  | cons p ps ih =>
    have h1 : ¬ ((name.isPrefixOf (p :: (ps ++ name))) = true) := by
      intro hp
      exact hq (p :: ps) (List.suffix_refl _) (by simp) (List.isPrefixOf_iff_prefix.1 hp)
    have h2 := ih (fun q hs hqne => hq q (hs.trans (List.suffix_cons p ps)) hqne)
    show Index name (p :: (ps ++ name)) = some (ps.length + 1)
    unfold Index
    rw [if_neg h1, h2]
    rfl

theorem no_early_occurrence (name y : Str) (hn : '/' ∉ name) (hy : ¬ name <:+: y)
    (q : Str) (hs : q <:+ y ++ ['/']) (hqne : q ≠ []) : ¬ name <+: q ++ name := by
  rcases List.eq_nil_or_concat q with rfl | ⟨q2, z, rfl⟩
  · exact absurd rfl hqne
  · obtain ⟨a, ha⟩ := hs
    have e : (a ++ q2) ++ [z] = y ++ ['/'] := by simpa using ha
    have hy2 : a ++ q2 = y := List.append_inj_left' e rfl
    have hz : z = '/' := by
      have := List.append_inj_right' e rfl
      simpa using this
    subst hz
    rintro ⟨t, ht⟩
    have ht2 : name ++ t = q2 ++ ('/' :: name) := by simpa using ht
    rcases List.append_eq_append_iff.1 ht2 with ⟨a2, h1, _⟩ | ⟨c2, h1, h2⟩
    · exact hy ⟨a, a2, by rw [← hy2, h1]; simp⟩
    · cases c2 with
      | nil =>
        simp only [List.append_nil] at h1
        exact hy ⟨a, [], by rw [← hy2, h1]; simp⟩
      | cons c cs =>
        simp only [List.cons_append, List.cons.injEq] at h2
        apply hn
        rw [h1, ← h2.1]
        simp

/-- Where the thumbnail path is the intended one: for a non-empty file name without `/` that
does not occur in the directory, replacing the first occurrence of the name in the
destination path by `min_` and the name gives the path of `min_` and the name in the same
directory. -/
theorem thumbnailPath_eq (directory name : Str) (hne : name ≠ []) (hn : '/' ∉ name)
    (hd : ¬ name <:+: directory) :
    thumbnailPath (buildDestinationPath directory name) name
      = buildDestinationPath directory ("min_".toList ++ name) := by
  have hs1 : specFilename name = name := by
    have : name.filter (fun c => c != '/') = name := by
      rw [List.filter_eq_self]
      intro c hc
      have : c ≠ '/' := fun e => hn (e ▸ hc)
      simpa using this
    simp [specFilename, this, hne]
  have hn2 : '/' ∉ "min_".toList ++ name := by
    intro hm
    rcases List.mem_append.1 hm with h | h
    · revert h; decide
    · exact hn h
  have hs2 : specFilename ("min_".toList ++ name) = "min_".toList ++ name := by
    have : ("min_".toList ++ name).filter (fun c => c != '/') = "min_".toList ++ name := by
      rw [List.filter_eq_self]
      intro c hc
      have : c ≠ '/' := fun e => hn2 (e ▸ hc)
      simpa using this
    simp only [specFilename, this]
    simp
  have hold : ¬ (name = "min_".toList ++ name ∨ (1 : Int) = 0) := by
    rintro (h | h)
    · have := congrArg List.length h
      simp at this
      omega
    · exact absurd h (by decide)
  have key : ∀ pre : Str, (∀ q, q <:+ pre → q ≠ [] → ¬ name <+: q ++ name) →
      Replace (pre ++ name) name ("min_".toList ++ name) 1
        = pre ++ ("min_".toList ++ name) := by
    intro pre hq
    have hi := Index_append_self name pre hne hq
    simp only [Replace, if_neg hold, show ¬ ((1 : Int) < 0) from by decide, if_false]
    show replaceLoop name ("min_".toList ++ name) 1 true (pre ++ name) = _
    simp only [replaceLoop, if_neg hne, hi]
    simp
  unfold thumbnailPath
  rw [buildDestinationPath_eq, buildDestinationPath_eq, hs1, hs2]
  by_cases hdir : directory = []
  · rw [if_pos hdir, if_pos hdir]
    have := key [] (fun q hs hqne => absurd (List.suffix_nil.1 hs) hqne)
    simpa using this
  · rw [if_neg hdir, if_neg hdir]
    have e1 : directory ++ '/' :: name = (directory ++ ['/']) ++ name := by simp
    have e2 : directory ++ '/' :: ("min_".toList ++ name)
        = (directory ++ ['/']) ++ ("min_".toList ++ name) := by simp
    rw [e1, e2, collapse_append_no_slash _ _ hn, collapse_append_no_slash _ _ hn2]
    obtain ⟨y, hy⟩ := collapse_append_slash directory
    rw [hy]
    apply key
    have hyd : ¬ name <:+: y := by
      intro h
      have h1 : name <:+: collapse (directory ++ ['/']) := by
        rw [hy]; exact h.trans (List.infix_append' [] y ['/'] |>.trans (by simp))
      have h2 := infix_collapse _ _ hn hne h1
      obtain ⟨a, b, hab⟩ := h2
      rcases List.eq_nil_or_concat b with rfl | ⟨b2, z, rfl⟩
      · have e : a ++ name = directory ++ ['/'] := by simpa using hab
        obtain ⟨n2, l, rfl⟩ : ∃ n2 l, name = n2 ++ [l] := by
          rcases List.eq_nil_or_concat name with h0 | ⟨n2, l, h0⟩
          · exact absurd h0 hne
          · exact ⟨n2, l, by simpa using h0⟩
        have e3 : (a ++ n2) ++ [l] = directory ++ ['/'] := by simpa using e
        have := List.append_inj_right' e3 rfl
        simp at this
        subst this
        exact hn (by simp)
      · have e : (a ++ name ++ b2) ++ [z] = directory ++ ['/'] := by simpa using hab
        exact hd ⟨a, b2, List.append_inj_left' e rfl⟩
    exact no_early_occurrence name y hn hyd

theorem thumbnailPath_eq_witness :
    thumbnailPath (buildDestinationPath "files/".toList "1.png".toList) "1.png".toList
      = buildDestinationPath "files/".toList ("min_".toList ++ "1.png".toList) :=
  thumbnailPath_eq "files/".toList "1.png".toList (by decide) (by decide) (by decide)

/-! ## createThumbnail -/

/-- C6. For all paths, every state of the file system and all integers `width`, `height`
with `width < 1` or `height < 1`, `createThumbnail` returns the `sizeError` and leaves the
file system as it was, the log of file operations included: no file is opened, created or
modified. -/
theorem createThumbnail_size_error (env : Env) (imageFileName previewFileName : Str)
    (width height : Int) (w : World) (h : width < 1 ∨ height < 1) :
    createThumbnail env imageFileName previewFileName width height w
      = (some (.sizeError "thumbnail size error".toList), w) := by
  unfold createThumbnail
  rw [if_pos h]

theorem createThumbnail_size_error_witness :
    ((0 : Int) < 1 ∨ (100 : Int) < 1) ∧
    createThumbnail sampleEnv "1.png".toList "min_1.png".toList 0 100 emptyWorld
      = (some (.sizeError "thumbnail size error".toList), emptyWorld) :=
  ⟨by decide, createThumbnail_size_error sampleEnv _ _ 0 100 emptyWorld (by decide)⟩

/-! ## SaveImageFromBase64: the pattern -/

theorem stripPrefix_some (p s r : Str) (h : stripPrefix p s = some r) : s = p ++ r := by
  unfold stripPrefix at h
  by_cases hp : p.isPrefixOf s = true
  · rw [if_pos hp] at h
    have hr : s.drop p.length = r := by simpa using h
    obtain ⟨t, ht⟩ := List.isPrefixOf_iff_prefix.1 hp
    subst ht
    simp at hr
    rw [hr]
  · rw [if_neg hp] at h
    cases h

theorem matchFormat_some (k : Nat) (rest format data : Str)
    (h : matchFormat k rest = some (format, data)) :
    ∃ after, rest = format ++ (";base64,".toList ++ after) ∧
      format.length = k ∧ format.all isLowerAZ = true := by
  unfold matchFormat at h
  split at h
  · rename_i hk
    split at h
    · rename_i after ha
      have hd := stripPrefix_some _ _ _ ha
      have hf : rest.take k = format := by
        have := congrArg Prod.fst (Option.some.inj h)
        exact this
      refine ⟨after, ?_, ?_, ?_⟩
      · rw [← hf, ← hd, List.take_append_drop]
      · rw [← hf, List.length_take]; omega
      · rw [← hf]; exact hk.2
    · cases h
  · cases h

theorem matchHere_some (s format data : Str) (h : matchHere s = some (format, data)) :
    ∃ rest, s = "data:image/".toList ++ (format ++ (";base64,".toList ++ rest)) ∧
      (format.length = 3 ∨ format.length = 4) ∧ format.all isLowerAZ = true := by
  unfold matchHere at h
  split at h
  · cases h
  · rename_i rest hr
    have hs := stripPrefix_some _ _ _ hr
    split at h
    · rename_i g hg
      have e : g = (format, data) := Option.some.inj h
      subst e
      obtain ⟨after, h1, h2, h3⟩ := matchFormat_some 4 rest format data hg
      exact ⟨after, by rw [hs, h1], Or.inr h2, h3⟩
    · obtain ⟨after, h1, h2, h3⟩ := matchFormat_some 3 rest format data h
      exact ⟨after, by rw [hs, h1], Or.inl h2, h3⟩

theorem FindStringSubmatch_some (s : Str) (g : Str × Str) (h : FindStringSubmatch s = some g) :
    containsDataUri s := by
  induction s with
  | nil =>
    unfold FindStringSubmatch at h
    obtain ⟨rest, h1, _, _⟩ := matchHere_some [] g.1 g.2 h
    have := congrArg List.length h1
    simp at this
  | cons c cs ih =>
    unfold FindStringSubmatch at h
    cases hm : matchHere (c :: cs) with
    | some g2 =>
      obtain ⟨rest, h1, h2, h3⟩ := matchHere_some (c :: cs) g2.1 g2.2 hm
      exact ⟨[], g2.1, rest, by simpa using h1, h2, h3⟩
    | none =>
      simp only [hm] at h
      obtain ⟨pre, format, data, h1, h2, h3⟩ := ih h
      exact ⟨c :: pre, format, data, by rw [h1]; rfl, h2, h3⟩

/-- C5, amended. For every directory and every payload in which `data:image/`, three or four
lower-case letters and `;base64,` follow one another nowhere (every payload without the
literal `data:image/`, the empty one included), `SaveImageFromBase64` returns the
`formatError` that expects `base64` and leaves the file system as it was. -/
theorem SaveImageFromBase64_no_match (env : Env) (sourceBase64 destinationDirectory : Str)
    (w : World) (h : ¬ containsDataUri sourceBase64) :
    SaveImageFromBase64 env sourceBase64 destinationDirectory w
      = (.error (.formatError "base64".toList "undefined".toList), w) := by
  cases hf : FindStringSubmatch sourceBase64 with
  | some g => exact absurd (FindStringSubmatch_some _ g hf) h
  | none => simp [SaveImageFromBase64, hf]

/-- A payload that does not contain the literal `data:image/` contains no data URI. -/
theorem not_containsDataUri_of_no_literal (payload : Str)
    (h : ¬ ("data:image/".toList <:+: payload)) : ¬ containsDataUri payload := by
  rintro ⟨pre, format, data, h1, _, _⟩
  exact h ⟨pre, format ++ (";base64,".toList ++ data), by rw [h1]; simp⟩

theorem SaveImageFromBase64_no_match_witness :
    SaveImageFromBase64 sampleEnv [] [] emptyWorld
      = (.error (.formatError "base64".toList "undefined".toList), emptyWorld) :=
  SaveImageFromBase64_no_match sampleEnv [] [] emptyWorld (by
    rintro ⟨pre, format, data, h1, _, _⟩
    have := congrArg List.length h1
    simp at this
    omega)

/-- C5, counterexample. It is not so that every payload that is not as a whole of the shape
`data:image/<format>;base64,<data>` gets a `formatError`: `xdata:image/png;base64,%` does not
start with `data:image/`, the pattern is found inside it, and the call returns the error of
the base64 decoder. -/
theorem SaveImageFromBase64_unanchored_counterexample :
    ¬ (∀ (env : Env) (sourceBase64 destinationDirectory : Str) (w : World),
        ¬ isDataUri sourceBase64 →
        ∃ expected real, SaveImageFromBase64 env sourceBase64 destinationDirectory w
          = (.error (.formatError expected real), w)) := by
  intro h
  have hshape : ¬ isDataUri "xdata:image/png;base64,%".toList := by
    rintro ⟨format, data, hp⟩
    have := congrArg List.head? hp
    simp at this
  obtain ⟨expected, real, he⟩ :=
    h sampleEnv "xdata:image/png;base64,%".toList "files".toList emptyWorld hshape
  have h1 : (SaveImageFromBase64 sampleEnv "xdata:image/png;base64,%".toList "files".toList
      emptyWorld).1 = .error .corruptInput := by decide
  rw [he] at h1
  cases h1

/-! ## Clean-up after a failed thumbnail -/

theorem osRemove_files (env : Env) (name : Str) (w : World)
    (h : env.removeFault w name = none) : (osRemove env name w).2.files name = none := by
  unfold osRemove
  rw [h]
  cases h2 : w.files name with
  | none => simpa [World.record] using h2
  | some c => simp [World.erase]

theorem osRemove_failed (env : Env) (name : Str) (w : World) (e : Error)
    (h : env.removeFault w name = some e) (p : Str) :
    (osRemove env name w).2.files p = w.files p := by
  unfold osRemove
  rw [h]
  rfl

theorem fileWrite_files (env : Env) (name : Str) (data : Bytes) (w : World) :
    ((fileWrite env name data w).2.files name).isSome = true := by
  unfold fileWrite
  cases h : env.writeFault w name data with
  | none => simp [World.put]
  | some f => simp [World.put]

/-- Every failed copy leaves the file: when `os.Create` succeeds and `io.Copy` returns an
error, `SaveImageFromPart` returns that error in the state the copy left, in which a file
stands at the destination path. -/
theorem failed_copy_keeps_file (env : Env) (sourceFile : Part) (destinationDirectory : Str)
    (w w1 w2 : World) (e : Error)
    (h1 : osCreate env (buildDestinationPath destinationDirectory sourceFile.fileName) w
      = (none, w1))
    (h2 : ioCopy env (buildDestinationPath destinationDirectory sourceFile.fileName)
      sourceFile.body w1 = (some e, w2)) :
    SaveImageFromPart env sourceFile destinationDirectory w = (some e, w2) ∧
    (w2.files (buildDestinationPath destinationDirectory sourceFile.fileName)).isSome
      = true := by
  refine ⟨by unfold SaveImageFromPart; simp only [h1, h2], ?_⟩
  have hw := fileWrite_files env (buildDestinationPath destinationDirectory sourceFile.fileName)
    sourceFile.body.data w1
  unfold ioCopy at h2
  rcases hf : fileWrite env (buildDestinationPath destinationDirectory sourceFile.fileName)
    sourceFile.body.data w1 with ⟨o, w3⟩
  rw [hf] at h2 hw
  cases o with
  | none =>
    have : w3 = w2 := congrArg Prod.snd h2
    rw [← this]; exact hw
  | some e2 =>
    have : w3 = w2 := congrArg Prod.snd h2
    rw [← this]; exact hw

theorem failed_copy_keeps_file_witness :
    SaveImageFromPart sampleEnv brokenUpload "files".toList emptyWorld
      = (some (.external 7),
          (ioCopy sampleEnv "files/a.png".toList brokenUpload.body
            (osCreate sampleEnv "files/a.png".toList emptyWorld).2).2) :=
  (failed_copy_keeps_file sampleEnv brokenUpload "files".toList emptyWorld _ _ (.external 7)
    rfl rfl).1

/-- C7, amended. For each of `SaveImageFromPart`, `SaveImageFromBase64` and
`SaveImageFromUrl`: when the original has been created and written at its destination path
without error and the `createThumbnail` call that follows returns an error, the ingestor
returns that error; when the `os.Remove` it then calls succeeds, no file is left at the
destination path, and when that call fails (the source discards its result) the file stays
as the thumbnail step left it. -/
theorem thumbnail_failure_cleanup :
    (∀ (env : Env) (sourceFile : Part) (destinationDirectory : Str) (w w1 w2 w3 : World)
        (e : Error),
      osCreate env (buildDestinationPath destinationDirectory sourceFile.fileName) w
        = (none, w1) →
      ioCopy env (buildDestinationPath destinationDirectory sourceFile.fileName)
        sourceFile.body w1 = (none, w2) →
      createThumbnail env (buildDestinationPath destinationDirectory sourceFile.fileName)
        (thumbnailPath (buildDestinationPath destinationDirectory sourceFile.fileName)
          sourceFile.fileName) 100 100 w2
        = (some e, w3) →
      (SaveImageFromPart env sourceFile destinationDirectory w).1 = some e ∧
      (env.removeFault w3 (buildDestinationPath destinationDirectory sourceFile.fileName)
          = none →
        (SaveImageFromPart env sourceFile destinationDirectory w).2.files
          (buildDestinationPath destinationDirectory sourceFile.fileName) = none) ∧
      (∀ e2, env.removeFault w3
          (buildDestinationPath destinationDirectory sourceFile.fileName) = some e2 →
        (SaveImageFromPart env sourceFile destinationDirectory w).2.files
          (buildDestinationPath destinationDirectory sourceFile.fileName)
          = w3.files (buildDestinationPath destinationDirectory sourceFile.fileName))) ∧
    (∀ (env : Env) (sourceBase64 destinationDirectory format data : Str) (b encoded : Bytes)
        (pic : Image) (w w1 w2 w3 : World) (e : Error),
      FindStringSubmatch sourceBase64 = some (format, data) →
      DecodeString data = .ok b →
      decodeAs env format b = some (.ok pic) →
      10 ≤ data.length →
      osOpenFile env (buildDestinationPath destinationDirectory
        (base64FileName (env.now w) data format)) w = (none, w1) →
      encodeAs env format pic = some encoded →
      fileWrite env (buildDestinationPath destinationDirectory
        (base64FileName (env.now w) data format)) encoded w1 = (none, w2) →
      createThumbnail env (buildDestinationPath destinationDirectory
          (base64FileName (env.now w) data format))
        (thumbnailPath (buildDestinationPath destinationDirectory
            (base64FileName (env.now w) data format))
          (base64FileName (env.now w) data format)) 100 100 w2
        = (some e, w3) →
      (SaveImageFromBase64 env sourceBase64 destinationDirectory w).1 = .error e ∧
      (env.removeFault w3 (buildDestinationPath destinationDirectory
          (base64FileName (env.now w) data format)) = none →
        (SaveImageFromBase64 env sourceBase64 destinationDirectory w).2.files
          (buildDestinationPath destinationDirectory
            (base64FileName (env.now w) data format)) = none) ∧
      (∀ e2, env.removeFault w3 (buildDestinationPath destinationDirectory
          (base64FileName (env.now w) data format)) = some e2 →
        (SaveImageFromBase64 env sourceBase64 destinationDirectory w).2.files
          (buildDestinationPath destinationDirectory
            (base64FileName (env.now w) data format))
          = w3.files (buildDestinationPath destinationDirectory
            (base64FileName (env.now w) data format)))) ∧
    (∀ (env : Env) (url destinationDirectory : Str) (response : HttpResponse)
        (w w1 w2 w3 : World) (e : Error),
      env.httpGet w url = .ok response →
      "image/".toList.isPrefixOf response.contentType = true →
      osOpenFile env (buildDestinationPath destinationDirectory
        (urlFileName url response.contentType)) w = (none, w1) →
      ioCopy env (buildDestinationPath destinationDirectory
        (urlFileName url response.contentType)) response.body w1 = (none, w2) →
      createThumbnail env (buildDestinationPath destinationDirectory
          (urlFileName url response.contentType))
        (thumbnailPath (buildDestinationPath destinationDirectory
            (urlFileName url response.contentType))
          (urlFileName url response.contentType)) 100 100 w2
        = (some e, w3) →
      (SaveImageFromUrl env url destinationDirectory w).1 = some e ∧
      (env.removeFault w3 (buildDestinationPath destinationDirectory
          (urlFileName url response.contentType)) = none →
        (SaveImageFromUrl env url destinationDirectory w).2.files
          (buildDestinationPath destinationDirectory
            (urlFileName url response.contentType)) = none) ∧
      (∀ e2, env.removeFault w3 (buildDestinationPath destinationDirectory
          (urlFileName url response.contentType)) = some e2 →
        (SaveImageFromUrl env url destinationDirectory w).2.files
          (buildDestinationPath destinationDirectory
            (urlFileName url response.contentType))
          = w3.files (buildDestinationPath destinationDirectory
            (urlFileName url response.contentType)))) := by
  refine ⟨?_, ?_, ?_⟩
  · intro env sourceFile dir w w1 w2 w3 e h1 h2 h3
    unfold SaveImageFromPart
    simp only [h1, h2, h3]
    exact ⟨trivial, fun hr => osRemove_files _ _ _ hr,
      fun e2 hr => osRemove_failed _ _ _ e2 hr _⟩
  · intro env src dir format data b encoded pic w w1 w2 w3 e hf hd hp hl h1 he h2 h3
    unfold SaveImageFromBase64
    simp only [hf, hd, hp, h1, he, h2, h3, if_neg (Nat.not_lt.2 hl)]
    exact ⟨trivial, fun hr => osRemove_files _ _ _ hr,
      fun e2 hr => osRemove_failed _ _ _ e2 hr _⟩
  · intro env url dir response w w1 w2 w3 e hg hc h1 h2 h3
    unfold SaveImageFromUrl
    simp only [hg, hc, h1, h2, h3, not_true_eq_false, if_false]
    exact ⟨trivial, fun hr => osRemove_files _ _ _ hr,
      fun e2 hr => osRemove_failed _ _ _ e2 hr _⟩

theorem thumbnail_failure_cleanup_witness :
    ((SaveImageFromPart sampleEnv ⟨"a.png".toList, ⟨[1, 2, 3], none⟩⟩ "files".toList
        emptyWorld).1 = some (.external 1) ∧
      (SaveImageFromPart sampleEnv ⟨"a.png".toList, ⟨[1, 2, 3], none⟩⟩ "files".toList
        emptyWorld).2.files "files/a.png".toList = none) ∧
    ((SaveImageFromBase64 unsupportedEnv pngPayload
        "files".toList emptyWorld).1 = .error (.external 3) ∧
      (SaveImageFromBase64 unsupportedEnv pngPayload
        "files".toList emptyWorld).2.files "files/1600000000iVBORw0KGg.png".toList = none) ∧
    ((SaveImageFromUrl sampleEnv "http://host/pic".toList "files".toList emptyWorld).1
        = some (.external 1) ∧
      (SaveImageFromUrl sampleEnv "http://host/pic".toList "files".toList emptyWorld).2.files
        "files/pic.png".toList = none) :=
  ⟨⟨(thumbnail_failure_cleanup.1 sampleEnv ⟨"a.png".toList, ⟨[1, 2, 3], none⟩⟩
        "files".toList emptyWorld _ _ _ (.external 1) rfl rfl rfl).1,
      (thumbnail_failure_cleanup.1 sampleEnv ⟨"a.png".toList, ⟨[1, 2, 3], none⟩⟩
        "files".toList emptyWorld _ _ _ (.external 1) rfl rfl rfl).2.1 rfl⟩,
    ⟨(thumbnail_failure_cleanup.2.1 unsupportedEnv
        pngPayload "files".toList "png".toList
        (pngPayload.drop 22) pngBytes pngBytes ⟨1, 1, pngBytes⟩ emptyWorld _ _ _ (.external 3)
        (by decide) rfl rfl (by decide) rfl (by decide) rfl rfl).1,
      (thumbnail_failure_cleanup.2.1 unsupportedEnv
        pngPayload "files".toList "png".toList
        (pngPayload.drop 22) pngBytes pngBytes ⟨1, 1, pngBytes⟩ emptyWorld _ _ _ (.external 3)
        (by decide) rfl rfl (by decide) rfl (by decide) rfl rfl).2.1 rfl⟩,
    ⟨(thumbnail_failure_cleanup.2.2 sampleEnv "http://host/pic".toList "files".toList
        ⟨"image/png".toList, ⟨[1, 2, 3], none⟩⟩ emptyWorld _ _ _ (.external 1)
        rfl (by decide) rfl rfl rfl).1,
      (thumbnail_failure_cleanup.2.2 sampleEnv "http://host/pic".toList "files".toList
        ⟨"image/png".toList, ⟨[1, 2, 3], none⟩⟩ emptyWorld _ _ _ (.external 1)
        rfl (by decide) rfl rfl rfl).2.1 rfl⟩⟩

/-- C7, counterexample. It is not so that after a failed thumbnail no file is ever left at
the destination path: where `os.Remove` fails, the upload `a.png` of three bytes that are no
picture is created and written, `createThumbnail` fails, the error is returned and the
three bytes stay at `files/a.png`; likewise for the base64 and the URL ingestor. -/
theorem thumbnail_failure_original_stays_counterexample :
    ¬ (∀ (env : Env) (sourceFile : Part) (destinationDirectory : Str) (w w1 w2 w3 : World)
        (e : Error),
      osCreate env (buildDestinationPath destinationDirectory sourceFile.fileName) w
        = (none, w1) →
      ioCopy env (buildDestinationPath destinationDirectory sourceFile.fileName)
        sourceFile.body w1 = (none, w2) →
      createThumbnail env (buildDestinationPath destinationDirectory sourceFile.fileName)
        (thumbnailPath (buildDestinationPath destinationDirectory sourceFile.fileName)
          sourceFile.fileName) 100 100 w2
        = (some e, w3) →
      (SaveImageFromPart env sourceFile destinationDirectory w).1 = some e ∧
      (SaveImageFromPart env sourceFile destinationDirectory w).2.files
        (buildDestinationPath destinationDirectory sourceFile.fileName) = none) ∧
    (SaveImageFromPart stuckEnv ⟨"a.png".toList, ⟨[1, 2, 3], none⟩⟩ "files".toList
      emptyWorld).1 = some (.external 1) ∧
    (SaveImageFromPart stuckEnv ⟨"a.png".toList, ⟨[1, 2, 3], none⟩⟩ "files".toList
      emptyWorld).2.files "files/a.png".toList = some [1, 2, 3] ∧
    (SaveImageFromBase64 stuckUnsupportedEnv pngPayload "files".toList emptyWorld).1
      = .error (.external 3) ∧
    (SaveImageFromBase64 stuckUnsupportedEnv pngPayload "files".toList emptyWorld).2.files
      "files/1600000000iVBORw0KGg.png".toList = some pngBytes ∧
    (SaveImageFromUrl stuckEnv "http://host/pic".toList "files".toList emptyWorld).1
      = some (.external 1) ∧
    (SaveImageFromUrl stuckEnv "http://host/pic".toList "files".toList emptyWorld).2.files
      "files/pic.png".toList = some [1, 2, 3] := by
  refine ⟨?_, by decide, by decide, by decide, by decide, by decide, by decide⟩
  intro h
  have h1 := (h stuckEnv ⟨"a.png".toList, ⟨[1, 2, 3], none⟩⟩ "files".toList emptyWorld
    _ _ _ (.external 1) rfl rfl rfl).2
  have h2 : (SaveImageFromPart stuckEnv ⟨"a.png".toList, ⟨[1, 2, 3], none⟩⟩ "files".toList
      emptyWorld).2.files "files/a.png".toList = some [1, 2, 3] := by decide
  have h3 : some [1, 2, 3] = (none : Option Bytes) := h2.symm.trans h1
  cases h3

/-! ## What an ingestion leaves in place -/

theorem keeps_refl (w : World) : keeps w w := fun _ h => h

theorem keeps_trans {a b c : World} (h1 : keeps a b) (h2 : keeps b c) : keeps a c :=
  fun p h => h2 p (h1 p h)

theorem keeps_toExcept {a b : World} (dest : Option Str) (h : keeps a b) :
    keepsExcept dest a b := fun p hp _ => h p hp

theorem keepsExcept_trans_left {a b c : World} (dest : Option Str) (h1 : keeps a b)
    (h2 : keepsExcept dest b c) : keepsExcept dest a c :=
  fun p hp hne => h2 p (h1 p hp) hne

theorem keeps_record (w : World) (e : FileEvent) : keeps w (w.record e) := fun _ h => h

theorem keeps_put (w : World) (path : Str) (content : Bytes) : keeps w (w.put path content) := by
  intro p h
  by_cases hp : p = path
  · simp [World.put, hp]
  · simpa [World.put, hp] using h

theorem osCreate_keeps (env : Env) (name : Str) (w : World) : keeps w (osCreate env name w).2 := by
  unfold osCreate
  cases env.createFault w name with
  | some e => exact keeps_record _ _
  | none => exact keeps_trans (keeps_record _ _) (keeps_put _ _ _)

theorem osOpenFile_keeps (env : Env) (name : Str) (w : World) :
    keeps w (osOpenFile env name w).2 := by
  unfold osOpenFile
  cases env.createFault w name with
  | some e => exact keeps_record _ _
  | none => exact keeps_trans (keeps_record _ _) (keeps_put _ _ _)

theorem fileWrite_keeps (env : Env) (name : Str) (data : Bytes) (w : World) :
    keeps w (fileWrite env name data w).2 := by
  unfold fileWrite
  cases env.writeFault w name data with
  | some f => exact keeps_trans (keeps_record _ _) (keeps_put _ _ _)
  | none => exact keeps_trans (keeps_record _ _) (keeps_put _ _ _)

theorem ioCopy_keeps (env : Env) (name : Str) (src : Reader) (w : World) :
    keeps w (ioCopy env name src w).2 := by
  have h := fileWrite_keeps env name src.data w
  unfold ioCopy
  rcases hf : fileWrite env name src.data w with ⟨o, w1⟩
  rw [hf] at h
  cases o with
  | some e => exact h
  | none => exact h

theorem imagingSave_keeps (env : Env) (img : Image) (filename : Str) (w : World) :
    keeps w (imagingSave env img filename w).2 := by
  unfold imagingSave
  cases env.saveFault w filename img with
  | none =>
    exact keeps_trans (keeps_trans (keeps_record _ _) (keeps_record _ _)) (keeps_put _ _ _)
  | some f =>
    cases f with
    | unsupported e => exact keeps_refl _
    | createFailed e => exact keeps_record _ _
    | encodeFailed written e =>
      exact keeps_trans (keeps_trans (keeps_record _ _) (keeps_record _ _)) (keeps_put _ _ _)

theorem imagingOpen_keeps (env : Env) (filename : Str) (w : World) :
    keeps w (imagingOpen env filename w).2 := by
  unfold imagingOpen
  cases w.files filename with
  | none => exact keeps_record _ _
  | some content => exact keeps_record _ _

theorem createThumbnail_keeps (env : Env) (imageFileName previewFileName : Str)
    (width height : Int) (w : World) :
    keeps w (createThumbnail env imageFileName previewFileName width height w).2 := by
  unfold createThumbnail
  by_cases h : width < 1 ∨ height < 1
  · rw [if_pos h]; exact keeps_refl _
  · rw [if_neg h]
    have k1 := imagingOpen_keeps env imageFileName w
    rcases h1 : imagingOpen env imageFileName w with ⟨o, w1⟩
    rw [h1] at k1
    cases o with
    | error e => exact k1
    | ok img => exact keeps_trans k1 (imagingSave_keeps _ _ _ _)

theorem osRemove_keepsExcept (env : Env) (name : Str) (w : World) :
    keepsExcept (some name) w (osRemove env name w).2 := by
  intro p hp hne
  have hpn : p ≠ name := fun e => hne (by rw [e])
  unfold osRemove
  cases env.removeFault w name with
  | some e => exact hp
  | none =>
    cases w.files name with
    | none => exact hp
    | some c => simpa [World.erase, World.record, hpn] using hp

theorem SaveImageFromUrl_keeps (env : Env) (url destinationDirectory : Str) (w : World) :
    keepsExcept (destinationOf env destinationDirectory (.url url) w) w
      (SaveImageFromUrl env url destinationDirectory w).2 ∧
    ((SaveImageFromUrl env url destinationDirectory w).1 = none →
      keeps w (SaveImageFromUrl env url destinationDirectory w).2) := by
  unfold SaveImageFromUrl
  cases hg : env.httpGet w url with
  | error e => exact ⟨keeps_toExcept _ (keeps_refl _), fun _ => keeps_refl _⟩
  | ok response =>
    have hdest : destinationOf env destinationDirectory (.url url) w
        = some (buildDestinationPath destinationDirectory
          (urlFileName url response.contentType)) := by
      simp only [destinationOf, hg]
    rw [hdest]
    by_cases hc : "image/".toList.isPrefixOf response.contentType = true
    · simp only [hc, not_true_eq_false, if_false]
      have k1 := osOpenFile_keeps env (buildDestinationPath destinationDirectory
        (urlFileName url response.contentType)) w
      rcases h1 : osOpenFile env (buildDestinationPath destinationDirectory
        (urlFileName url response.contentType)) w with ⟨o1, w1⟩
      rw [h1] at k1
      cases o1 with
      | some e => exact ⟨keeps_toExcept _ k1, fun _ => k1⟩
      | none =>
        dsimp only
        have k2 := ioCopy_keeps env (buildDestinationPath destinationDirectory
          (urlFileName url response.contentType)) response.body w1
        rcases h2 : ioCopy env (buildDestinationPath destinationDirectory
          (urlFileName url response.contentType)) response.body w1 with ⟨o2, w2⟩
        rw [h2] at k2
        cases o2 with
        | some e => exact ⟨keeps_toExcept _ (keeps_trans k1 k2), fun _ => keeps_trans k1 k2⟩
        | none =>
          dsimp only
          have k3 := createThumbnail_keeps env (buildDestinationPath destinationDirectory
            (urlFileName url response.contentType))
            (thumbnailPath (buildDestinationPath destinationDirectory
              (urlFileName url response.contentType))
              (urlFileName url response.contentType)) 100 100 w2
          rcases h3 : createThumbnail env (buildDestinationPath destinationDirectory
            (urlFileName url response.contentType))
            (thumbnailPath (buildDestinationPath destinationDirectory
              (urlFileName url response.contentType))
              (urlFileName url response.contentType)) 100 100 w2 with ⟨o3, w3⟩
          rw [h3] at k3
          have k123 := keeps_trans (keeps_trans k1 k2) k3
          cases o3 with
          | none => exact ⟨keeps_toExcept _ k123, fun _ => k123⟩
          | some e =>
            dsimp only
            refine ⟨keepsExcept_trans_left _ k123 (osRemove_keepsExcept _ _ _), ?_⟩
            intro hn; cases hn
    · simp only [hc, not_false_eq_true, if_true]
      exact ⟨keeps_toExcept _ (keeps_refl _), fun _ => keeps_refl _⟩

theorem base64_finish_keeps (env : Env) (dest thumb : Str) (w w2 : World) (k : keeps w w2) :
    keepsExcept (some dest) w
      (match createThumbnail env dest thumb 100 100 w2 with
        | (some e, w3) => (Outcome.error e, (osRemove env dest w3).2)
        | (none, w3) => (Outcome.ok, w3)).2 ∧
    ((match createThumbnail env dest thumb 100 100 w2 with
        | (some e, w3) => (Outcome.error e, (osRemove env dest w3).2)
        | (none, w3) => (Outcome.ok, w3)).1 = .ok →
      keeps w
        (match createThumbnail env dest thumb 100 100 w2 with
          | (some e, w3) => (Outcome.error e, (osRemove env dest w3).2)
          | (none, w3) => (Outcome.ok, w3)).2) := by
  have k3 := createThumbnail_keeps env dest thumb 100 100 w2
  rcases h3 : createThumbnail env dest thumb 100 100 w2 with ⟨o3, w3⟩
  rw [h3] at k3
  have k123 := keeps_trans k k3
  cases o3 with
  | none => exact ⟨keeps_toExcept _ k123, fun _ => k123⟩
  | some e =>
    dsimp only
    refine ⟨keepsExcept_trans_left _ k123 (osRemove_keepsExcept _ _ _), ?_⟩
    intro hn; cases hn

theorem SaveImageFromBase64_keeps (env : Env) (sourceBase64 destinationDirectory : Str)
    (w : World) :
    keepsExcept (destinationOf env destinationDirectory (.base64 sourceBase64) w) w
      (SaveImageFromBase64 env sourceBase64 destinationDirectory w).2 ∧
    ((SaveImageFromBase64 env sourceBase64 destinationDirectory w).1 = .ok →
      keeps w (SaveImageFromBase64 env sourceBase64 destinationDirectory w).2) := by
  unfold SaveImageFromBase64
  cases hf : FindStringSubmatch sourceBase64 with
  | none => exact ⟨keeps_toExcept _ (keeps_refl _), fun _ => keeps_refl _⟩
  | some g =>
    obtain ⟨format, data⟩ := g
    have hdest : destinationOf env destinationDirectory (.base64 sourceBase64) w
        = some (buildDestinationPath destinationDirectory
          (base64FileName (env.now w) data format)) := by
      simp only [destinationOf, hf]
    rw [hdest]
    dsimp only
    cases hd : DecodeString data with
    | error e => exact ⟨keeps_toExcept _ (keeps_refl _), fun _ => keeps_refl _⟩
    | ok b =>
      dsimp only
      cases hp : decodeAs env format b with
      | none => exact ⟨keeps_toExcept _ (keeps_refl _), fun _ => keeps_refl _⟩
      | some r =>
        cases r with
        | error e => exact ⟨keeps_toExcept _ (keeps_refl _), fun _ => keeps_refl _⟩
        | ok pic =>
          dsimp only
          by_cases hl : data.length < 10
          · rw [if_pos hl]
            exact ⟨keeps_toExcept _ (keeps_refl _), fun _ => keeps_refl _⟩
          · rw [if_neg hl]
            have k1 := osOpenFile_keeps env (buildDestinationPath destinationDirectory
              (base64FileName (env.now w) data format)) w
            rcases h1 : osOpenFile env (buildDestinationPath destinationDirectory
              (base64FileName (env.now w) data format)) w with ⟨o1, w1⟩
            rw [h1] at k1
            cases o1 with
            | some e => exact ⟨keeps_toExcept _ k1, fun _ => k1⟩
            | none =>
              dsimp only
              cases he : encodeAs env format pic with
              | none =>
                dsimp only
                exact base64_finish_keeps env _ _ w w1 k1
              | some encoded =>
                dsimp only
                have k2 := fileWrite_keeps env (buildDestinationPath destinationDirectory
                  (base64FileName (env.now w) data format)) encoded w1
                rcases h2 : fileWrite env (buildDestinationPath destinationDirectory
                  (base64FileName (env.now w) data format)) encoded w1 with ⟨o2, w2⟩
                rw [h2] at k2
                cases o2 with
                | some e =>
                  exact ⟨keeps_toExcept _ (keeps_trans k1 k2), fun _ => keeps_trans k1 k2⟩
                | none =>
                  dsimp only
                  exact base64_finish_keeps env _ _ w w2 (keeps_trans k1 k2)

theorem ingest_keeps (env : Env) (filesDir : Str) (it : Item) (w : World) :
    keepsExcept (destinationOf env filesDir it w) w (ingest env filesDir it w).2 ∧
    ((ingest env filesDir it w).1 = .ok → keeps w (ingest env filesDir it w).2) := by
  cases it with
  | base64 payload => exact SaveImageFromBase64_keeps env payload filesDir w
  | url address =>
    have h := SaveImageFromUrl_keeps env address filesDir w
    rcases hs : SaveImageFromUrl env address filesDir w with ⟨o, w1⟩
    rw [hs] at h
    cases o with
    | none =>
      have e : ingest env filesDir (.url address) w = (.ok, w1) := by simp only [ingest, hs]
      rw [e]
      exact ⟨h.1, fun _ => h.2 rfl⟩
    | some err =>
      have e : ingest env filesDir (.url address) w = (.error err, w1) := by
        simp only [ingest, hs]
      rw [e]
      exact ⟨h.1, fun hn => by cases hn⟩

theorem worldAfter_append (env : Env) (filesDir : Str) (xs ys : List Item) (w : World) :
    worldAfter env filesDir (xs ++ ys) w
      = worldAfter env filesDir ys (worldAfter env filesDir xs w) := by
  induction xs generalizing w with
  | nil => rfl
  | cons x rest ih => exact ih (ingest env filesDir x w).2

theorem worldAfter_keeps (env : Env) (filesDir : Str) (later : List Item) (w0 : World)
    (p : Str) (hp : (w0.files p).isSome = true)
    (hok : ∀ before it rest, later = before ++ it :: rest →
      (ingest env filesDir it (worldAfter env filesDir before w0)).1 = .ok ∨
      some p ≠ destinationOf env filesDir it (worldAfter env filesDir before w0)) :
    ((worldAfter env filesDir later w0).files p).isSome = true := by
  induction later generalizing w0 with
  | nil => exact hp
  | cons it0 rest ih =>
    have hstep : ((ingest env filesDir it0 w0).2.files p).isSome = true := by
      rcases hok [] it0 rest rfl with h | h
      · exact (ingest_keeps env filesDir it0 w0).2 h p hp
      · exact (ingest_keeps env filesDir it0 w0).1 p hp h
    exact ih (ingest env filesDir it0 w0).2 hstep
      (fun before it rest2 he => hok (it0 :: before) it rest2 (by rw [he]; rfl))

/-! ## The JSON batch -/

theorem runBatch_append (env : Env) (filesDir : Str) (xs ys : List Item) (w : World) :
    runBatch env filesDir (xs ++ ys) w =
      match runBatch env filesDir xs w with
      | (.ok, w1, tr) =>
        ((runBatch env filesDir ys w1).1, (runBatch env filesDir ys w1).2.1,
          tr ++ (runBatch env filesDir ys w1).2.2)
      | (.error e, w1, tr) => (.error e, w1, tr)
      | (.panicked, w1, tr) => (.panicked, w1, tr)
    := by
  induction xs generalizing w with
  | nil => simp [runBatch]
  | cons it rest ih =>
    simp only [List.cons_append, runBatch]
    rcases h : ingest env filesDir it w with ⟨o, w1⟩
    cases o with
    | ok =>
      rcases h2 : runBatch env filesDir rest w1 with ⟨o2, w2, tr2⟩
      cases o2 <;> simp [ih w1, h2]
    | error e => simp
    | panicked => simp

theorem loadBase64_eq (env : Env) (filesDir : Str) (l : List Str) (w : World)
    (tr : List Item) :
    loadBase64 env filesDir l w tr =
      ((runBatch env filesDir (l.map Item.base64) w).1,
        (runBatch env filesDir (l.map Item.base64) w).2.1,
        tr ++ (runBatch env filesDir (l.map Item.base64) w).2.2) := by
  induction l generalizing w tr with
  | nil => simp [loadBase64, runBatch]
  | cons s rest ih =>
    simp only [loadBase64, List.map_cons, runBatch, ingest]
    rcases h : SaveImageFromBase64 env s filesDir w with ⟨o, w1⟩
    cases o with
    | ok => simp [ih w1]
    | error e => simp
    | panicked => simp

theorem loadUrls_eq (env : Env) (filesDir : Str) (l : List Str) (w : World)
    (tr : List Item) :
    loadUrls env filesDir l w tr =
      (match (runBatch env filesDir (l.map Item.url) w).1 with
        | .error e => some e
        | _ => none,
        (runBatch env filesDir (l.map Item.url) w).2.1,
        tr ++ (runBatch env filesDir (l.map Item.url) w).2.2) ∧
    (runBatch env filesDir (l.map Item.url) w).1 ≠ .panicked := by
  induction l generalizing w tr with
  | nil => simp [loadUrls, runBatch]
  | cons s rest ih =>
    simp only [loadUrls, List.map_cons, runBatch, ingest]
    rcases h : SaveImageFromUrl env s filesDir w with ⟨o, w1⟩
    cases o with
    | none =>
      simp only []
      exact ⟨by rw [(ih w1 _).1]; simp, (ih w1 tr).2⟩
    | some e => simp

theorem LoadImages_eq_runBatch (env : Env) (filesDir : Str) (jsonBody : JsonBody)
    (w : World) :
    LoadImages env filesDir jsonBody w =
      ⟨respond (runBatch env filesDir (batchItems jsonBody) w).1,
        (runBatch env filesDir (batchItems jsonBody) w).2.1,
        (runBatch env filesDir (batchItems jsonBody) w).2.2⟩ := by
  unfold LoadImages batchItems
  rw [runBatch_append, loadBase64_eq]
  rcases h : runBatch env filesDir (jsonBody.Base64.map Item.base64) w with ⟨o, w1, tr⟩
  cases o with
  | error e => simp [respond]
  | panicked => simp [respond]
  | ok =>
    simp only [List.nil_append]
    have hu := loadUrls_eq env filesDir jsonBody.Urls w1 tr
    rw [hu.1]
    rcases h2 : runBatch env filesDir (jsonBody.Urls.map Item.url) w1 with ⟨o2, w2, tr2⟩
    rw [h2] at hu
    cases o2 with
    | ok => simp [respond]
    | error e => simp [respond]
    | panicked => exact absurd rfl hu.2

theorem runBatch_spec (env : Env) (filesDir : Str) (items : List Item) (w : World) :
    (runBatch env filesDir items w).2.2 <+: items ∧
    (runBatch env filesDir items w).2.1
      = worldAfter env filesDir (runBatch env filesDir items w).2.2 w ∧
    (∀ before it later, (runBatch env filesDir items w).2.2 = before ++ it :: later →
      later ≠ [] → outcomeAfter env filesDir before it w = .ok) ∧
    ((runBatch env filesDir items w).1 = .ok →
      (runBatch env filesDir items w).2.2 = items ∧
      ∀ before it later, items = before ++ it :: later →
        outcomeAfter env filesDir before it w = .ok) ∧
    ((runBatch env filesDir items w).1 ≠ .ok →
      ∃ before it, (runBatch env filesDir items w).2.2 = before ++ [it] ∧
        outcomeAfter env filesDir before it w = (runBatch env filesDir items w).1) := by
  induction items generalizing w with
  | nil =>
    refine ⟨by simp [runBatch], by simp [runBatch, worldAfter], ?_, ?_, ?_⟩
    · intro before it later h; simp [runBatch] at h
    · intro _; refine ⟨by simp [runBatch], ?_⟩
      intro before it later h; simp at h
    · intro h; simp [runBatch] at h
  | cons it0 rest ih =>
    rcases h : ingest env filesDir it0 w with ⟨o, w1⟩
    have hfail : o ≠ .ok → runBatch env filesDir (it0 :: rest) w = (o, w1, [it0]) := by
      intro ho
      cases o with
      | ok => exact absurd rfl ho
      | error e => simp [runBatch, h]
      | panicked => simp [runBatch, h]
    by_cases ho : o = .ok
    · subst ho
      obtain ⟨p1, p2, p3, p4, p5⟩ := ih w1
      have e : runBatch env filesDir (it0 :: rest) w =
          ((runBatch env filesDir rest w1).1, (runBatch env filesDir rest w1).2.1,
            it0 :: (runBatch env filesDir rest w1).2.2) := by
        simp [runBatch, h]
      have hstep : ∀ before it, outcomeAfter env filesDir (it0 :: before) it w
          = outcomeAfter env filesDir before it w1 := by
        intro before it
        simp [outcomeAfter, worldAfter, h]
      have hhead : outcomeAfter env filesDir [] it0 w = .ok := by
        simp [outcomeAfter, worldAfter, h]
      rw [e]
      refine ⟨?_, ?_, ?_, ?_, ?_⟩
      · simpa [List.cons_prefix_cons] using p1
      · simp only [worldAfter, h]; exact p2
      · intro before it later hb hl
        cases before with
        | nil =>
          simp only [List.nil_append, List.cons.injEq] at hb
          rw [← hb.1]; exact hhead
        | cons b before2 =>
          simp only [List.cons_append, List.cons.injEq] at hb
          rw [← hb.1, hstep]
          exact p3 before2 it later hb.2 hl
      · intro hok
        obtain ⟨q1, q2⟩ := p4 hok
        refine ⟨by simp only []; rw [q1], ?_⟩
        intro before it later hb
        cases before with
        | nil =>
          simp only [List.nil_append, List.cons.injEq] at hb
          rw [← hb.1]; exact hhead
        | cons b before2 =>
          simp only [List.cons_append, List.cons.injEq] at hb
          rw [← hb.1, hstep]
          exact q2 before2 it later hb.2
      · intro hne
        obtain ⟨before, it, q1, q2⟩ := p5 hne
        refine ⟨it0 :: before, it, by simp only []; rw [q1]; rfl, ?_⟩
        rw [hstep]; exact q2
    · rw [hfail ho]
      refine ⟨by simp [List.cons_prefix_cons], by simp [worldAfter, h], ?_, ?_, ?_⟩
      · intro before it later hb hl
        cases before with
        | nil => simp at hb; exact absurd hb.2 hl
        | cons b before2 => simp at hb
      · intro hok; exact absurd hok ho
      · intro _
        exact ⟨[], it0, rfl, by simp [outcomeAfter, worldAfter, h]⟩

/-- C9, amended. For every JSON batch, `LoadImages` hands the items to the ingestors in the
order base64 payloads, then URLs: the items attempted are a leading part of the batch, every
attempted item but the last succeeded, and the file system left is the one the attempted
ingestions produce one after the other (the handler itself removes nothing).  The response
is `ok` exactly when every item of the batch succeeds, and then all were attempted;
otherwise the last attempted item is the first that did not succeed, and when it returned
an error the response has status 500 and an empty body.  A file that was there after some of
the attempted items is still there at the end, unless the last attempted item did not
succeed and the file stands at that item's own destination path. -/
theorem LoadImages_stops_at_first_failure (env : Env) (filesDir : Str) (jsonBody : JsonBody)
    (w : World) :
    (LoadImages env filesDir jsonBody w).attempted <+: batchItems jsonBody ∧
    (LoadImages env filesDir jsonBody w).world
      = worldAfter env filesDir (LoadImages env filesDir jsonBody w).attempted w ∧
    (∀ before it later,
      (LoadImages env filesDir jsonBody w).attempted = before ++ it :: later →
      later ≠ [] → outcomeAfter env filesDir before it w = .ok) ∧
    ((LoadImages env filesDir jsonBody w).response = some ⟨200, "ok".toList⟩ ↔
      ∀ before it later, batchItems jsonBody = before ++ it :: later →
        outcomeAfter env filesDir before it w = .ok) ∧
    ((LoadImages env filesDir jsonBody w).response = some ⟨200, "ok".toList⟩ →
      (LoadImages env filesDir jsonBody w).attempted = batchItems jsonBody) ∧
    ((LoadImages env filesDir jsonBody w).response ≠ some ⟨200, "ok".toList⟩ →
      ∃ before it, (LoadImages env filesDir jsonBody w).attempted = before ++ [it] ∧
        outcomeAfter env filesDir before it w ≠ .ok ∧
        (∀ e, outcomeAfter env filesDir before it w = .error e →
          (LoadImages env filesDir jsonBody w).response = some ⟨500, []⟩)) ∧
    (∀ first later p,
      (LoadImages env filesDir jsonBody w).attempted = first ++ later →
      ((worldAfter env filesDir first w).files p).isSome = true →
      (∀ before it, (LoadImages env filesDir jsonBody w).attempted = before ++ [it] →
        outcomeAfter env filesDir before it w = .ok ∨
        some p ≠ destinationOf env filesDir it (worldAfter env filesDir before w)) →
      ((LoadImages env filesDir jsonBody w).world.files p).isSome = true) := by
  obtain ⟨p1, p2, p3, p4, p5⟩ := runBatch_spec env filesDir (batchItems jsonBody) w
  rw [LoadImages_eq_runBatch]
  have hresp : ∀ o : Outcome, respond o = some ⟨200, "ok".toList⟩ ↔ o = .ok := by
    intro o; cases o <;> simp [respond]
  refine ⟨p1, p2, p3, ?_, ?_, ?_, ?_⟩
  · simp only [hresp]
    constructor
    · intro hok; exact (p4 hok).2
    · intro hall
      by_contra hne
      obtain ⟨before, it, q1, q2⟩ := p5 hne
      obtain ⟨later, hl⟩ := p1
      have := hall before it later (by rw [← hl, q1]; simp)
      rw [this] at q2
      exact hne q2.symm
  · simp only [hresp]
    intro hok; exact (p4 hok).1
  · simp only [ne_eq, hresp]
    intro hne
    obtain ⟨before, it, q1, q2⟩ := p5 hne
    refine ⟨before, it, q1, by rw [q2]; exact hne, ?_⟩
    intro e he
    rw [q2] at he
    simp [he, respond]
  · intro first later p hsplit hp hlast
    simp only [] at hsplit hlast ⊢
    rw [p2, hsplit, worldAfter_append]
    apply worldAfter_keeps env filesDir later _ p hp
    intro b it rest hb
    have hstate : worldAfter env filesDir b (worldAfter env filesDir first w)
        = worldAfter env filesDir (first ++ b) w := (worldAfter_append _ _ _ _ _).symm
    rw [hstate]
    by_cases hr : rest = []
    · subst hr
      exact hlast (first ++ b) it (by rw [hsplit, hb]; simp)
    · left
      exact p3 (first ++ b) it rest (by rw [hsplit, hb]; simp) hr

/-- C9, counterexample. It is not so that nothing an earlier item wrote is ever removed: two
URLs with the same file name, the first answering with a PNG and the second with bytes
that are no picture.  The first item writes `files/pic.png`; the second opens the same
path, its thumbnail fails and its clean-up removes the file; the response is status 500. -/
theorem LoadImages_earlier_file_removed_counterexample :
    ¬ (∀ (env : Env) (filesDir : Str) (jsonBody : JsonBody) (w : World)
        (first later : List Item) (p : Str),
      (LoadImages env filesDir jsonBody w).attempted = first ++ later →
      w.files p = none →
      ((worldAfter env filesDir first w).files p).isSome = true →
      ((LoadImages env filesDir jsonBody w).world.files p).isSome = true) ∧
    (LoadImages twoHostEnv "files".toList
      ⟨[], ["http://a/pic.png".toList, "http://b/pic.png".toList]⟩ emptyWorld).attempted
      = [.url "http://a/pic.png".toList, .url "http://b/pic.png".toList] ∧
    (LoadImages twoHostEnv "files".toList
      ⟨[], ["http://a/pic.png".toList, "http://b/pic.png".toList]⟩ emptyWorld).response
      = some ⟨500, []⟩ ∧
    (worldAfter twoHostEnv "files".toList [.url "http://a/pic.png".toList] emptyWorld).files
      "files/pic.png".toList = some pngBytes ∧
    (LoadImages twoHostEnv "files".toList
      ⟨[], ["http://a/pic.png".toList, "http://b/pic.png".toList]⟩ emptyWorld).world.files
      "files/pic.png".toList = none := by
  refine ⟨?_, by decide, by decide, by decide, by decide⟩
  intro h
  have h1 := h twoHostEnv "files".toList
    ⟨[], ["http://a/pic.png".toList, "http://b/pic.png".toList]⟩ emptyWorld
    [.url "http://a/pic.png".toList] [.url "http://b/pic.png".toList] "files/pic.png".toList
    (by decide) rfl (by decide)
  revert h1
  decide

/-! ## The failing inputs, evaluated -/

/-- C8, at the failing input. An upload `a.png` whose stream breaks after two bytes, into an
empty directory: `SaveImageFromPart` returns the error of the copy and the two bytes stay at
`files/a.png`, where no file was before.  Likewise a response body that breaks
(`SaveImageFromUrl`) and an encoder write that fails (`SaveImageFromBase64`) leave the
partial original in place. -/
theorem failed_copy_leaves_original :
    emptyWorld.files "files/a.png".toList = none ∧
    (SaveImageFromPart sampleEnv brokenUpload "files".toList emptyWorld).1
      = some (.external 7) ∧
    (SaveImageFromPart sampleEnv brokenUpload "files".toList emptyWorld).2.files
      "files/a.png".toList = some [137, 80] ∧
    (SaveImageFromUrl brokenBodyEnv "http://host/pic".toList "files".toList emptyWorld).1
      = some (.external 7) ∧
    (SaveImageFromUrl brokenBodyEnv "http://host/pic".toList "files".toList emptyWorld).2.files
      "files/pic.png".toList = some [137, 80] ∧
    (SaveImageFromBase64 diskFullEnv pngPayload "files".toList emptyWorld).1
      = .error (.external 8) ∧
    (SaveImageFromBase64 diskFullEnv pngPayload "files".toList emptyWorld).2.files
      "files/1600000000iVBORw0KGg.png".toList = some [137] := by
  decide

set_option maxRecDepth 100000 in
/-- C4, at the failing input. A JPEG data URI (its data start with `/9j/`): the synthesised
name holds `/`, the destination path does not, so the replacement finds nothing and the
thumbnail path is the destination path itself, not `files/min_...`; the call succeeds, the
file at the destination path then holds the thumbnail, no `min_` file exists, and every
file operation of the call went to that one path. -/
theorem base64_jpeg_thumbnail_overwrites_original :
    FindStringSubmatch jpegPayload = some ("jpeg".toList, jpegPayload.drop 23) ∧
    buildDestinationPath "files".toList
      (base64FileName 1600000000 (jpegPayload.drop 23) "jpeg".toList)
      = "files/16000000009j4AAQSk.jpeg".toList ∧
    thumbnailPath "files/16000000009j4AAQSk.jpeg".toList
      (base64FileName 1600000000 (jpegPayload.drop 23) "jpeg".toList)
      = "files/16000000009j4AAQSk.jpeg".toList ∧
    buildDestinationPath "files".toList "min_16000000009j4AAQSk.jpeg".toList
      = "files/min_16000000009j4AAQSk.jpeg".toList ∧
    (SaveImageFromBase64 sampleEnv jpegPayload "files".toList emptyWorld).1 = .ok ∧
    (SaveImageFromBase64 sampleEnv jpegPayload "files".toList emptyWorld).2.files
      "files/16000000009j4AAQSk.jpeg".toList = some [255, 216, 255, 224] ∧
    (SaveImageFromBase64 sampleEnv jpegPayload "files".toList emptyWorld).2.files
      "files/min_16000000009j4AAQSk.jpeg".toList = none ∧
    (SaveImageFromBase64 sampleEnv jpegPayload "files".toList emptyWorld).2.log.all
      (fun ev => ev.path == "files/16000000009j4AAQSk.jpeg".toList) = true := by
  decide

/-- C10, at the failing input. Directory `files/` and file name `file`: the destination path
is `files/file`, its first occurrence of `file` lies in the directory, so the thumbnail path
is `min_files/file` and not `files/min_file`; `SaveImageFromPart` writes the thumbnail
there. -/
theorem thumbnail_path_leaves_directory :
    buildDestinationPath "files/".toList "file".toList = "files/file".toList ∧
    thumbnailPath (buildDestinationPath "files/".toList "file".toList) "file".toList
      = "min_files/file".toList ∧
    buildDestinationPath "files/".toList ("min_".toList ++ "file".toList)
      = "files/min_file".toList ∧
    (SaveImageFromPart sampleEnv ⟨"file".toList, ⟨[71, 73, 70, 56, 57, 97], none⟩⟩
      "files/".toList emptyWorld).2.files "min_files/file".toList = some [71, 73, 70, 56] ∧
    (SaveImageFromPart sampleEnv ⟨"file".toList, ⟨[71, 73, 70, 56, 57, 97], none⟩⟩
      "files/".toList emptyWorld).2.files "files/min_file".toList = none := by
  decide

/-- A batch evaluated: a PNG payload, then a payload that is no data URI, then a URL.  The
first item is stored with its thumbnail, the second fails, the URL is never fetched, the
response is status 500 without a body, and the files of the first item stay. -/
theorem LoadImages_example :
    (LoadImages sampleEnv "files".toList ⟨[pngPayload, "junk".toList], ["http://host/pic".toList]⟩
      emptyWorld).attempted = [.base64 pngPayload, .base64 "junk".toList] ∧
    (LoadImages sampleEnv "files".toList ⟨[pngPayload, "junk".toList], ["http://host/pic".toList]⟩
      emptyWorld).response = some ⟨500, []⟩ ∧
    (LoadImages sampleEnv "files".toList ⟨[pngPayload, "junk".toList], ["http://host/pic".toList]⟩
      emptyWorld).world.files "files/1600000000iVBORw0KGg.png".toList
        = some pngBytes ∧
    (LoadImages sampleEnv "files".toList ⟨[pngPayload, "junk".toList], ["http://host/pic".toList]⟩
      emptyWorld).world.files "files/min_1600000000iVBORw0KGg.png".toList
        = some [137, 80, 78, 71] := by
  decide

theorem LoadImages_stops_at_first_failure_witness :
    ((LoadImages sampleEnv "files".toList
      ⟨[pngPayload, "junk".toList], ["http://host/pic".toList]⟩ emptyWorld).world.files
      "files/1600000000iVBORw0KGg.png".toList).isSome = true :=
  (LoadImages_stops_at_first_failure sampleEnv "files".toList
    ⟨[pngPayload, "junk".toList], ["http://host/pic".toList]⟩ emptyWorld).2.2.2.2.2.2
    [.base64 pngPayload] [.base64 "junk".toList] "files/1600000000iVBORw0KGg.png".toList
    (by decide) (by decide)
    (by
      intro before it h
      have ha : (LoadImages sampleEnv "files".toList
          ⟨[pngPayload, "junk".toList], ["http://host/pic".toList]⟩ emptyWorld).attempted
          = [.base64 pngPayload] ++ [.base64 "junk".toList] := by decide
      rw [ha] at h
      have hit : [Item.base64 "junk".toList] = [it] := List.append_inj_right' h rfl
      have hit2 : it = .base64 "junk".toList := by
        have := List.head_eq_of_cons_eq hit
        exact this.symm
      subst hit2
      right
      have hn : FindStringSubmatch "junk".toList = none := by decide
      simp only [destinationOf, hn]
      intro hc
      cases hc)

end ImageEater
